import Mathlib

/-!
Verification of the event-collector application (src/app.py) against its
natural-language specification.

The Python source is shallowly embedded: JSON-shaped Python values become the
inductive type `PyVal`; operations that can raise (`.get` on a non-mapping,
`int()` on a non-numeric string, `.strip()` on a non-string, iteration over a
non-iterable, HTTP errors) return `Except PyErr`.  Machine-level details that
the claims do not touch are modelled as follows and noted where they occur:
floating-point JSON numbers are not modelled (`PyVal` carries `Int` only),
`str.lower` is modelled as ASCII lowercasing, and the regular-expression
search performed by `pandas.Series.str.contains` is modelled exactly for
patterns free of regex metacharacters (plain substring search) while patterns
containing metacharacters are mapped to an error.
-/

/-- JSON-shaped Python values, as produced by `requests.Response.json()` and
`json.loads`.  Dictionary keys are strings, as in JSON. -/
inductive PyVal where
  | none
  | bool (b : Bool)
  | int (n : Int)
  | str (s : String)
  | list (xs : List PyVal)
  | dict (m : List (String × PyVal))

/-- Python exceptions that the embedded code can raise. -/
inductive PyErr where
  | readTimeout (m : String)
  | connError (m : String)
  | httpError (status : Nat)
  | valueError (m : String)
  | typeError (m : String)
  | attributeError (m : String)
deriving DecidableEq

/-- Python truthiness: `None`, `False`, `0`, `""`, `[]`, `\x7b\x7d` are falsy. -/
def pyTruthy : PyVal → Bool
  | .none => false
  | .bool b => b
  | .int n => n != 0
  | .str s => s != ""
  | .list xs => !xs.isEmpty
  | .dict m => !m.isEmpty

/-- First binding of a key in an association list (Python dict lookup). -/
def assocFind (m : List (String × PyVal)) (k : String) : Option PyVal :=
  match m with
  | [] => Option.none
  | (k1, v) :: rest => if k1 = k then some v else assocFind rest k

/-- Python `d.get(key, default)`.  Raises `AttributeError` when the receiver
is not a dict, as `.get` does on other JSON values. -/
def pyGet (v : PyVal) (key : String) (default : PyVal) : Except PyErr PyVal :=
  match v with
  | .dict m => .ok ((assocFind m key).getD default)
  | _ => .error (.attributeError "object has no attribute get")

/-- Python iteration: lists yield their items, strings their characters,
dicts their keys; other values raise `TypeError`. -/
def pyIterate (v : PyVal) : Except PyErr (List PyVal) :=
  match v with
  | .list xs => .ok xs
  | .str s => .ok (s.data.map (fun c => .str (String.singleton c)))
  | .dict m => .ok (m.map (fun kv => .str kv.1))
  | _ => .error (.typeError "object is not iterable")

/-- ASCII decimal digit character for a digit value. -/
def dChar (n : Nat) : Char := Char.ofNat (48 + n)

/-- Decimal characters of a natural number (big-endian, no leading zeros),
by fuel-bounded division (`fuel ≥ n` suffices); `[]` for `0`, which callers
special-case. -/
def natCharsAux : Nat → Nat → List Char
  | 0, _ => []
  | fuel + 1, n => if n = 0 then [] else natCharsAux fuel (n / 10) ++ [dChar (n % 10)]

/-- Decimal characters of a natural number (big-endian, no leading zeros). -/
def natChars (n : Nat) : List Char := natCharsAux n n

/-- Python `str` of a non-negative integer. -/
def natToStr (n : Nat) : String :=
  if n = 0 then "0" else ⟨natChars n⟩

/-- Python `str` of an integer. -/
def intToStr (i : Int) : String :=
  if i < 0 then "-" ++ natToStr i.natAbs else natToStr i.toNat

/-- Value of an ASCII digit character, if it is one. -/
def digitVal (c : Char) : Option Nat :=
  if 48 ≤ c.toNat ∧ c.toNat ≤ 57 then some (c.toNat - 48) else Option.none

/-- Is this an ASCII decimal digit character? -/
def isDigitCh (c : Char) : Bool := 48 ≤ c.toNat && c.toNat ≤ 57

/-- Parse a non-empty run of decimal digits (big-endian). -/
def parseDigits (cs : List Char) : Option Nat :=
  if cs.isEmpty then Option.none
  else if cs.all isDigitCh then
    some (cs.foldl (fun a c => a * 10 + (c.toNat - 48)) 0)
  else Option.none

/-- Characters stripped by Python `str.strip()` (ASCII whitespace). -/
def isPyWs (c : Char) : Bool :=
  c = ' ' || c = '\t' || c = '\n' || c = '\x0d' || c = '\x0b' || c = '\x0c'

/-- Python `str.strip()` on the character list. -/
def trimChars (cs : List Char) : List Char :=
  (cs.dropWhile isPyWs).reverse.dropWhile isPyWs |>.reverse

/-- Python `str.strip()`. -/
def trimStr (s : String) : String := ⟨trimChars s.data⟩

/-- Python `int(s)` on a string: optional surrounding whitespace, optional
sign, then decimal digits (decimal literals without underscores). -/
def pyIntChars : List Char → Option Int
  | [] => Option.none
  | c :: rest =>
    if c = '-' then (parseDigits rest).map (fun n => -(n : Int))
    else if c = '+' then (parseDigits rest).map (fun n => (n : Int))
    else (parseDigits (c :: rest)).map (fun n => (n : Int))

/-- Python `int(s)` on a string (see `pyIntChars`). -/
def pyIntParse (s : String) : Option Int :=
  pyIntChars (trimChars s.data)

/-- Python `int(x)` on a JSON value: ints pass through, bools coerce to 0/1,
numeric strings are parsed, everything else raises. -/
def pyInt (v : PyVal) : Except PyErr Int :=
  match v with
  | .int n => .ok n
  | .bool b => .ok (if b then 1 else 0)
  | .str s =>
    match pyIntParse s with
    | some n => .ok n
    | Option.none => .error (.valueError "invalid literal for int() with base 10")
  | _ => .error (.typeError "int() argument must be a string or a number")

/-- Python `str(x)` for the scalar JSON values; composite values receive a
repr-like rendering (never relied upon for composites by the source paths
modelled here, which apply `str` to scalars only). -/
def pyStr : PyVal → String
  | .none => "None"
  | .bool b => if b then "True" else "False"
  | .int n => intToStr n
  | .str s => s
  | .list _ => "[...]"
  | .dict _ => "\x7b...\x7d"

/-- ASCII lowercasing of a character (models `str.lower` on the ASCII range). -/
def lowerChar (c : Char) : Char :=
  if 65 ≤ c.toNat ∧ c.toNat ≤ 90 then Char.ofNat (c.toNat + 32) else c

/-- ASCII lowercasing of a string. -/
def lowerStr (s : String) : String := ⟨s.data.map lowerChar⟩

/-- Does `pat` occur at the head of `hay`? -/
def prefAt : List Char → List Char → Bool
  | [], _ => true
  | _ :: _, [] => false
  | p :: ps, h :: hs => p = h && prefAt ps hs

/-- Substring search on character lists. -/
def subInChars (pat hay : List Char) : Bool :=
  match hay with
  | [] => pat.isEmpty
  | _ :: rest => prefAt pat hay || subInChars pat rest

/-- Python `pat in hay` substring test. -/
def subIn (pat hay : String) : Bool := subInChars pat.data hay.data

/-- Python string comparison `s < t` (lexicographic on code points). -/
def pyListLt : List Char → List Char → Bool
  | _, [] => false
  | [], _ :: _ => true
  | a :: as, b :: bs =>
    if a.toNat < b.toNat then true
    else if b.toNat < a.toNat then false
    else pyListLt as bs

/-- Python string comparison on `String`. -/
def pyStrLt (s t : String) : Bool := pyListLt s.data t.data

/-- Python `", ".join`. -/
def joinComma (names : List String) : String := String.intercalate ", " names

/-- A calendar date (year, month, day). -/
structure Ymd where
  y : Nat
  m : Nat
  d : Nat
deriving DecidableEq

/-- Gregorian leap-year rule, as implemented by `datetime.date`. -/
def isLeap (y : Nat) : Bool :=
  y % 4 = 0 && (y % 100 != 0 || y % 400 = 0)

/-- Days in a month, as validated by the `datetime.date` constructor. -/
def daysInMonth (y m : Nat) : Nat :=
  if m = 2 then (if isLeap y then 29 else 28)
  else if m = 4 || m = 6 || m = 9 || m = 11 then 30
  else 31

/-- Is `⟨y, m, d⟩` a date accepted by `datetime.date(y, m, d)`? -/
def validYmd (y m d : Nat) : Bool :=
  1 ≤ y && y ≤ 9999 && 1 ≤ m && m ≤ 12 && 1 ≤ d && d ≤ daysInMonth y m

/-- Strict lexicographic order on dates, the order of `datetime.date`. -/
def ymdLtB (a b : Ymd) : Bool :=
  a.y < b.y || (a.y = b.y && (a.m < b.m || (a.m = b.m && a.d < b.d)))

/-- Non-strict date order. -/
def ymdLeB (a b : Ymd) : Bool := a == b || ymdLtB a b

/-- `datetime.strptime(s, "%Y%m%d").date()`: exactly eight digits — a
four-digit year, a two-digit month and a two-digit day — validated as a
calendar date. -/
def parseYmd8 (s : String) : Option Ymd :=
  match s.data with
  | [c1, c2, c3, c4, c5, c6, c7, c8] =>
    match digitVal c1, digitVal c2, digitVal c3, digitVal c4,
          digitVal c5, digitVal c6, digitVal c7, digitVal c8 with
    | some a, some b, some c, some d, some e, some f, some g, some h =>
      if validYmd (1000 * a + 100 * b + 10 * c + d) (10 * e + f) (10 * g + h) then
        some ⟨1000 * a + 100 * b + 10 * c + d, 10 * e + f, 10 * g + h⟩
      else Option.none
    | _, _, _, _, _, _, _, _ => Option.none
  | _ => Option.none

/-- `datetime.date.fromisoformat`: `YYYY-MM-DD`, validated as a calendar
date (the canonical ISO form produced by `date.isoformat`). -/
def fromIso (s : String) : Option Ymd :=
  match s.data with
  | [c1, c2, c3, c4, h1, c5, c6, h2, c7, c8] =>
    if h1 = '-' ∧ h2 = '-' then
      match digitVal c1, digitVal c2, digitVal c3, digitVal c4,
            digitVal c5, digitVal c6, digitVal c7, digitVal c8 with
      | some a, some b, some c, some d, some e, some f, some g, some h =>
        if validYmd (1000 * a + 100 * b + 10 * c + d) (10 * e + f) (10 * g + h) then
          some ⟨1000 * a + 100 * b + 10 * c + d, 10 * e + f, 10 * g + h⟩
        else Option.none
      | _, _, _, _, _, _, _, _ => Option.none
    else Option.none
  | _ => Option.none

/-- Zero-padded two-digit rendering. -/
def pad2 (n : Nat) : List Char := [dChar (n / 10 % 10), dChar (n % 10)]

/-- Zero-padded four-digit rendering. -/
def pad4 (n : Nat) : List Char :=
  [dChar (n / 1000 % 10), dChar (n / 100 % 10), dChar (n / 10 % 10), dChar (n % 10)]

/-- `date.isoformat()`: `YYYY-MM-DD` with zero padding. -/
def renderYmd (t : Ymd) : String :=
  ⟨pad4 t.y ++ '-' :: (pad2 t.m ++ '-' :: pad2 t.d)⟩

/-- The nested `to_iso` helper of `parse_event`: `strptime(d, "%Y%m%d")`
re-rendered with `isoformat()`; any failure (including a non-string
argument, which makes `strptime` raise `TypeError`) is caught and yields
`None`. -/
def to_iso (v : PyVal) : Option String :=
  match v with
  | .str s => (parseYmd8 s).map renderYmd
  | _ => Option.none

/-- A normalized event, the dict returned by `parse_event`.  The place and
link fields can hold arbitrary truthy JSON values in the source and are kept
as `PyVal`; the remaining fields always hold the types shown. -/
structure Event where
  title : String
  start : Option String
  ende : Option String
  place : PyVal
  cats : String
  link : PyVal

/-- The category table `id -> name` built per refresh cycle. -/
abbrev CatMap := List (Int × String)

/-- First binding of an integer key in the category table. -/
def catFind (m : CatMap) (k : Int) : Option String :=
  match m with
  | [] => Option.none
  | (k1, v) :: rest => if k1 = k then some v else catFind rest k

/-- Dict assignment `m[k] = v`: overwrite the first binding in place, or
append a new one. -/
def catSet (m : CatMap) (k : Int) (v : String) : CatMap :=
  match m with
  | [] => [(k, v)]
  | (k1, v1) :: rest => if k1 = k then (k1, v) :: rest else (k1, v1) :: catSet rest k v

/-- Lines 100-101 of `parse_event`:
`title = ((post.get("title") or \x7b\x7d).get("rendered", "") or "").strip()` —
`.strip()` raises unless the value reached is a string. -/
def titleStep (post : PyVal) : Except PyErr String := do
  let t0 ← pyGet post "title" .none
  let t1 := if pyTruthy t0 then t0 else .dict []
  let t2 ← pyGet t1 "rendered" (.str "")
  let t3 := if pyTruthy t2 then t2 else .str ""
  match t3 with
  | .str s => Except.ok (trimStr s)
  | _ => Except.error (.attributeError "object has no attribute strip")

/-- Line 102 of `parse_event`: `link = post.get("link", "") or ""`. -/
def linkStep (post : PyVal) : Except PyErr PyVal := do
  let l0 ← pyGet post "link" (.str "")
  pure (if pyTruthy l0 then l0 else PyVal.str "")

/-- Line 104 of `parse_event`:
`acf = post.get("acf") or post.get("meta") or \x7b\x7d`. -/
def acfStep (post : PyVal) : Except PyErr PyVal := do
  let a0 ← pyGet post "acf" .none
  if pyTruthy a0 then pure a0
  else do
    let m0 ← pyGet post "meta" .none
    pure (if pyTruthy m0 then m0 else PyVal.dict [])

/-- Line 115 of `parse_event`: `place = acf.get("helyszin_rovid_neve") or
(acf.get("esemeny_terkep") or \x7b\x7d).get("city") or "–"`. -/
def placeStep (acf : PyVal) : Except PyErr PyVal := do
  let p0 ← pyGet acf "helyszin_rovid_neve" .none
  if pyTruthy p0 then pure p0
  else do
    let tk ← pyGet acf "esemeny_terkep" .none
    let tk1 := if pyTruthy tk then tk else PyVal.dict []
    let c0 ← pyGet tk1 "city" .none
    pure (if pyTruthy c0 then c0 else PyVal.str "–")

/-- Lines 117-119 of `parse_event`: `cat_ids = post.get("categories", [])
or []`, then `[cat_map.get(int(cid), str(cid)) for cid in cat_ids]`, joined
with ", " or replaced by the sentinel when no names resolve. -/
def catsStep (post : PyVal) (cat_map : CatMap) : Except PyErr String := do
  let c0 ← pyGet post "categories" (.list [])
  let catIds := if pyTruthy c0 then c0 else PyVal.list []
  let ids ← pyIterate catIds
  let catNames ← ids.mapM (fun cid => do
    let k ← pyInt cid
    pure ((catFind cat_map k).getD (pyStr cid)))
  pure (if catNames.isEmpty then "–" else joinComma catNames)

/-- `parse_event(post, cat_map)` (src/app.py lines 96-128), with Python's
exception behaviour made explicit: `.get` on a non-mapping, `.strip()` on a
non-string, iteration over a non-iterable and `int()` on a non-coercible
category id all raise.  The steps run in source order: title, link,
custom-field bag, dates, place, categories. -/
def parse_event (post : PyVal) (cat_map : CatMap) : Except PyErr Event := do
  let title ← titleStep post
  let link ← linkStep post
  let acf ← acfStep post
  let s0 ← pyGet acf "esemeny_kezdete" .none
  let e0 ← pyGet acf "esemeny_vege" .none
  let place ← placeStep acf
  let cats ← catsStep post cat_map
  pure ⟨title, to_iso s0, to_iso e0, place, cats, link⟩

/-- An HTTP response: status code, parsed JSON body, headers. -/
structure Response where
  status : Nat
  body : PyVal
  headers : List (String × String)

/-- Outcome of one `requests.get` call: a read timeout, a connection
error, or a response (whose status `raise_for_status` then inspects). -/
inductive GetResult where
  | readTimeout (m : String)
  | connError (m : String)
  | resp (r : Response)

/-- `r.raise_for_status()` followed by returning `r`: raises `HTTPError`
exactly for 4xx/5xx status codes. -/
def runAttempt (g : GetResult) : Except PyErr Response :=
  match g with
  | .readTimeout m => .error (.readTimeout m)
  | .connError m => .error (.connError m)
  | .resp r =>
    if 400 ≤ r.status ∧ r.status < 600 then .error (.httpError r.status) else .ok r

/-- Result of `safe_get`: the returned response or propagated exception,
together with the number of attempts made and of sleeps taken. -/
structure SG where
  result : Except PyErr Response
  attempts : Nat
  sleeps : Nat

/-- The retry loop of `safe_get` (src/app.py lines 58-73), from attempt `a`
with `fuel` iterations remaining (`fuel = retries - a + 1` at every call):
return on success, re-raise any non-timeout error immediately, and on a
read timeout sleep and retry unless this was the last attempt. -/
def safe_get_aux (attempt : Nat → GetResult) (retries : Nat) : Nat → Nat → SG
  | _, 0 => ⟨.error (.typeError "exceptions must derive from BaseException"), 0, 0⟩
  | a, fuel + 1 =>
    match runAttempt (attempt a) with
    | .ok r => ⟨.ok r, a, 0⟩
    | .error (.readTimeout m) =>
      if a = retries then ⟨.error (.readTimeout m), a, 0⟩
      else
        let rest := safe_get_aux attempt retries (a + 1) fuel
        ⟨rest.result, rest.attempts, rest.sleeps + 1⟩
    | .error e => ⟨.error e, a, 0⟩

/-- `safe_get(url, params)` with its default of 3 retries, abstracted over
the outcome of each attempt.  The degenerate `retries = 0` case models the
trailing `raise last_err` with `last_err = None` (a `TypeError`). -/
def safe_get (attempt : Nat → GetResult) (retries : Nat) : SG :=
  safe_get_aux attempt retries 1 retries

/-- One entry of a category page: `c.get("id")` / `c.get("name")`; entries
with both populate `cat_map[int(cid)] = str(name)`, entries missing either
are skipped, and a non-mapping entry raises on `.get`. -/
def addCatEntry (m : CatMap) (c : PyVal) : Except PyErr CatMap := do
  let cid ← pyGet c "id" .none
  let name ← pyGet c "name" .none
  match cid, name with
  | .none, _ => pure m
  | _, .none => pure m
  | _, _ => do
    let k ← pyInt cid
    pure (catSet m k (pyStr name))

/-- The page loop of `fetch_category_map` (src/app.py lines 76-93), with
explicit fuel for the unbounded `while True`: request page `page`, stop on
a falsy body, otherwise fold the entries into the table and continue with
the next page.  `Option.none` means the fuel ran out (the Python loop would
still be running). -/
def fetch_category_map (g : Nat → GetResult) (page : Nat) (m : CatMap) :
    Nat → Option (Except PyErr CatMap)
  | 0 => Option.none
  | fuel + 1 =>
    match (safe_get (fun _ => g page) 3).result with
    | .error e => some (.error e)
    | .ok r =>
      if !pyTruthy r.body then some (.ok m)
      else
        match pyIterate r.body with
        | .error e => some (.error e)
        | .ok items =>
          match items.foldlM addCatEntry m with
          | .error e => some (.error e)
          | .ok m2 => fetch_category_map g (page + 1) m2 fuel

/-- The two cache artifacts: `cache/cache_categories.json` and
`cache/cache_posts.json`, each holding a parsed JSON document when the file
exists.  Each single-file write is taken as atomic; what is at issue across
the claims is the relationship between the two files. -/
structure Fs where
  cats : Option PyVal
  posts : Option PyVal

/-- The category map as `json.dumps` serializes it: a JSON object whose
keys are the text renderings of the integer ids. -/
def serCats (m : CatMap) : PyVal :=
  .dict (m.map (fun kv => (intToStr kv.1, .str kv.2)))

/-- The `\x7bfetched_at, posts\x7d` envelope written by `save_cache`. -/
def serPosts (now : String) (posts : PyVal) : PyVal :=
  .dict [("fetched_at", .str now), ("posts", posts)]

/-- Injection points for a write failure inside `save_cache`. -/
inductive SaveFail where
  | atMkdir
  | atCats
  | atPosts
deriving DecidableEq

/-- `save_cache(cat_map, posts)` (src/app.py lines 131-137) acting on the
on-disk state, with an optional injected failure; returns the state after
the call and whether an exception was raised.  The category artifact is
written first, then the records envelope — there is no transactional
mechanism linking the two writes. -/
def save_cache (m : CatMap) (posts : PyVal) (now : String)
    (fail : Option SaveFail) (fs : Fs) : Fs × Bool :=
  if fail = some .atMkdir then (fs, true)
  else if fail = some .atCats then (fs, true)
  else
    let fs1 : Fs := ⟨some (serCats m), fs.posts⟩
    if fail = some .atPosts then (fs1, true)
    else (⟨fs1.cats, some (serPosts now posts)⟩, false)

/-- `load_cache()` (src/app.py lines 140-158): all-absent when either file
is missing or the guarded block raises; otherwise the category keys are
coerced back with `int(k)`, discarding non-coercible keys, and the envelope
fields are read with defaults.  The second and third components are the raw
Python values returned (`posts`, `fetched_at`). -/
def load_cache (fs : Fs) : Option CatMap × PyVal × PyVal :=
  match fs.cats, fs.posts with
  | some cv, some pv =>
    match cv with
    | .dict kvs =>
      let m := kvs.foldl (fun acc kv =>
        match pyIntParse kv.1 with
        | some n => catSet acc n (pyStr kv.2)
        | Option.none => acc) []
      match pv with
      | .dict pkvs =>
        (some m, ((assocFind pkvs "posts").getD (.list [])),
          ((assocFind pkvs "fetched_at").getD .none))
      | _ => (Option.none, .none, .none)
    | _ => (Option.none, .none, .none)
  | _, _ => (Option.none, .none, .none)

/-- The signals a `FetchWorker` emits while running. -/
inductive Sig where
  | status (m : String)
  | progress (page : Nat) (total : Int)
  | pageEvents (evs : List Event)
  | finished (cm : CatMap) (posts : PyVal) (fetchedAt : String)
  | failed (m : String)

/-- Rendering of an exception by `str(e)` for the `failed` signal
(representative messages, not byte-exact CPython text). -/
def pyErrStr : PyErr → String
  | .readTimeout m => m
  | .connError m => m
  | .httpError s => "HTTP error " ++ natToStr s
  | .valueError m => m
  | .typeError m => m
  | .attributeError m => m

/-- The worker's environment: the network responses per category page and
per post page, the two `datetime.utcnow()` readings (line 204 and the one
inside `save_cache`), and an optional injected save failure. -/
structure WEnv where
  catsPage : Nat → GetResult
  postsPage : Nat → GetResult
  nowRun : String
  nowSave : String
  saveFail : Option SaveFail

/-- `int(r.headers.get("X-WP-TotalPages", 1))`: the default `1` is used
only when the header is absent; a present but non-numeric value makes
`int()` raise `ValueError`. -/
def headerTotal (hdrs : List (String × String)) : Except PyErr Int :=
  match hdrs.lookup "X-WP-TotalPages" with
  | Option.none => .ok 1
  | some s =>
    match pyIntParse s with
    | some n => .ok n
    | Option.none => .error (.valueError "invalid literal for int() with base 10")

/-- `[parse_event(p, cat_map) for p in v]`: iterate, normalizing each item;
the first exception propagates. -/
def parseEventsV (v : PyVal) (cm : CatMap) : Except PyErr (List Event) := do
  let items ← pyIterate v
  items.mapM (fun p => parse_event p cm)

/-- The pages `range(2, total_pages + 1)` of the worker loop. -/
def pageList (total : Int) : List Nat :=
  List.range' 2 (total - 1).toNat

/-- The page-2-onward loop of `FetchWorker.run` (src/app.py lines 194-202):
per page a status signal, a fetch, `posts.extend(data)`, normalization of
the page, then progress and batch signals.  Returns the accumulated
signals, the raw post aggregate, and whether the loop completed. -/
def workerLoop (env : WEnv) (cm : CatMap) (total : Int) :
    List Nat → PyVal → List Sig → List Sig × PyVal × Bool
  | [], posts, sigs => (sigs, posts, true)
  | p :: rest, posts, sigs =>
    let sigs := sigs ++ [.status ("Posztok letöltése (" ++ natToStr p ++ ". oldal)…")]
    match (safe_get (fun _ => env.postsPage p) 3).result with
    | .error e => (sigs ++ [.failed (pyErrStr e)], posts, false)
    | .ok r =>
      match posts with
      | .list pl =>
        match pyIterate r.body with
        | .error e => (sigs ++ [.failed (pyErrStr e)], posts, false)
        | .ok items =>
          let posts : PyVal := .list (pl ++ items)
          match parseEventsV r.body cm with
          | .error e => (sigs ++ [.failed (pyErrStr e)], posts, false)
          | .ok ev2 =>
            workerLoop env cm total rest posts
              (sigs ++ [.progress p total, .pageEvents ev2])
      | _ => (sigs ++ [.failed (pyErrStr (.attributeError "no attribute extend"))], posts, false)

/-- `FetchWorker.run` (src/app.py lines 178-210): category resolution, page
1 with the total-page header, the page loop, then `save_cache` and the
terminal signal; any exception along the way becomes a `failed` signal.
`catFuel` bounds the category `while True` loop; `Option.none` means that
loop was still running. -/
def fetchWorkerRun (env : WEnv) (fs : Fs) (catFuel : Nat) :
    Option (List Sig × Fs) :=
  let sigs := [Sig.status "Kategóriák letöltése…"]
  match fetch_category_map env.catsPage 1 [] catFuel with
  | Option.none => Option.none
  | some (.error e) => some (sigs ++ [.failed (pyErrStr e)], fs)
  | some (.ok cm) =>
    let sigs := sigs ++ [Sig.status "Posztok letöltése (1. oldal)…"]
    match (safe_get (fun _ => env.postsPage 1) 3).result with
    | .error e => some (sigs ++ [.failed (pyErrStr e)], fs)
    | .ok r =>
      match headerTotal r.headers with
      | .error e => some (sigs ++ [.failed (pyErrStr e)], fs)
      | .ok total =>
        match parseEventsV r.body cm with
        | .error e => some (sigs ++ [.failed (pyErrStr e)], fs)
        | .ok ev1 =>
          let sigs := sigs ++ [.progress 1 total, .pageEvents ev1]
          match workerLoop env cm total (pageList total) r.body sigs with
          | (sigs, _, false) => some (sigs, fs)
          | (sigs, posts, true) =>
            let sv := save_cache cm posts env.nowSave env.saveFail fs
            if sv.2 then some (sigs ++ [.failed "save_cache failed"], sv.1)
            else some (sigs ++ [.finished cm posts env.nowRun], sv.1)

/-- The batches carried by the `page_events` signals of a run. -/
def emittedBatches (sigs : List Sig) : List (List Event) :=
  sigs.filterMap (fun s => match s with
    | .pageEvents evs => some evs
    | _ => Option.none)

/-- Did the run emit a `failed` signal? -/
def anyFailed (sigs : List Sig) : Bool :=
  sigs.any (fun s => match s with | .failed _ => true | _ => false)

/-- Did the run emit a `finished` signal? -/
def anyFinished (sigs : List Sig) : Bool :=
  sigs.any (fun s => match s with | .finished _ _ _ => true | _ => false)

/-- Did the run emit any `progress` signal? -/
def anyProgress (sigs : List Sig) : Bool :=
  sigs.any (fun s => match s with | .progress _ _ => true | _ => false)

/-- The consumer-side state the claims are about: the accumulated event
collection `df_all` and the active-run flag `_loading`.  The presentation
fields (table widget, labels, spinner) are outside the model. -/
structure AppState where
  dfAll : List Event
  loading : Bool

/-- The row filter of `App.on_page_events` and `App.load_initial`:
`df["Kezdete"].notna() & (df["Kezdete"] != "")`. -/
def keepEv (e : Event) : Bool :=
  e.start.isSome && e.start != some ""

/-- `App.refresh_from_api` (src/app.py lines 496-509) restricted to the
modelled state: a no-op while a run is active; otherwise set the run flag
and clear the accumulated collection before any batch arrives. -/
def refresh_from_api (st : AppState) : AppState :=
  if st.loading then st else { dfAll := [], loading := true }

/-- `App.on_page_events` (src/app.py lines 543-579) restricted to the
modelled state: drop rows without a start date from the incoming batch and
append the survivors to the accumulated collection (identical in the
live-filter and append branches, which differ only in presentation). -/
def on_page_events (st : AppState) (evs : List Event) : AppState :=
  if evs.isEmpty then st
  else { st with dfAll := st.dfAll ++ evs.filter keepEv }

/-- `App.on_failed` (src/app.py lines 603-612) restricted to the modelled
state: clear the run flag; the accumulated collection is not touched. -/
def on_failed (st : AppState) : AppState :=
  { st with loading := false }

/-- The characters `re` treats as metacharacters. -/
def isRegexMeta (c : Char) : Bool :=
  c = '\\' || c = '^' || c = '$' || c = '.' || c = '|' || c = '?' || c = '*' ||
  c = '+' || c = '(' || c = ')' || c = '[' || c = ']' || c = '\x7b' || c = '\x7d'

/-- Is the pattern free of regex metacharacters (so that a regex search for
it is plain substring search)? -/
def regexFree (pat : String) : Bool := !pat.data.any isRegexMeta

/-- `series.str.contains(pat)` of pandas, which interprets `pat` as a
regular expression: modelled exactly for metacharacter-free patterns
(substring search); a pattern containing metacharacters is outside the
model and mapped to an error (several such patterns, e.g. an unbalanced
`(`, genuinely raise `re.error` in the source). -/
def pyContains (pat hay : String) : Except PyErr Bool :=
  if regexFree pat then .ok (subIn pat hay)
  else .error (.valueError "regex pattern outside model")

/-- Effectful filtering, as the row-wise evaluation of a pandas boolean
mask that can raise. -/
def filterE (f : α → Except PyErr Bool) : List α → Except PyErr (List α)
  | [] => .ok []
  | x :: xs => do
    let b ← f x
    let rest ← filterE f xs
    pure (if b then x :: rest else rest)

/-- The filter criteria read from the widgets at each `apply_filters`
invocation: the two date pickers, the selected category names, and the raw
search-box text. -/
structure Criteria where
  dFrom : Ymd
  dTo : Ymd
  selected : List String
  queryText : String

/-- The nested `to_date` helper of `apply_filters`:
`datetime.fromisoformat(str(s)).date()` with failures mapped to `None`
(`str(None) = "None"` never parses). -/
def to_date (s : Option String) : Option Ymd :=
  match s with
  | Option.none => Option.none
  | some s => fromIso s

/-- The `has_any` category predicate of `apply_filters`: split the event's
category cell on commas, strip each part, and keep the row when any
selected name is among the parts. -/
def has_any (catStr : String) (selected : List String) : Bool :=
  let parts := (catStr.splitOn ",").map trimStr
  selected.any (fun s => parts.contains s)

/-- The text-search mask for one row: lowercased query against lowercased
title or place (`astype(str)` renders the place cell first). -/
def searchMask (q : String) (e : Event) : Except PyErr Bool := do
  let a ← pyContains q (lowerStr e.title)
  let b ← pyContains q (lowerStr (pyStr e.place))
  pure (a || b)

/-- The sort comparator of
`df.sort_values(by=["Kezdete", "Esemény neve"], ascending=[True, True])`:
primary key the start cell (an ISO string at this point), tie-break on the
title, remaining ties kept in input order by the stable multi-key sort. -/
def evLe (a b : Event) : Bool :=
  let sa := a.start.getD ""
  let sb := b.start.getD ""
  if sa = sb then !pyStrLt b.title a.title else pyStrLt sa sb

/-- The date-range mask: start parses and lies within the closed range. -/
def dateMask (c : Criteria) (e : Event) : Bool :=
  match to_date e.start with
  | some d => ymdLeB c.dFrom d && ymdLeB d c.dTo
  | Option.none => false

/-- The filter/sort pipeline of `App.apply_filters` (src/app.py lines
440-484), the pure query engine over the accumulated events: drop rows
whose start date does not parse, keep the closed date range, keep category
matches when categories are selected, keep text matches when the stripped
query is non-empty, then stable-sort by (start, title).  The UI gating at
the top of `apply_filters` (loading flag, live-filter checkbox) only
selects what is rendered and is outside the engine. -/
def apply_filters (events : List Event) (c : Criteria) : Except PyErr (List Event) := do
  let df1 := events.filter (fun e => (to_date e.start).isSome)
  let df2 := df1.filter (dateMask c)
  let df3 := if c.selected.isEmpty then df2 else df2.filter (fun e => has_any e.cats c.selected)
  let q := lowerStr (trimStr c.queryText)
  let df4 ← if q = "" then pure df3 else filterE (searchMask q) df3
  pure (df4.mergeSort evLe)

/-- The row predicate stated by the specification of the query engine: the
start date parses and lies in the closed range; when categories are
selected, one comma-split category name matches; when the (trimmed,
lowercased) query is non-empty, it occurs as a substring of the lowercased
title or place. -/
def specKeep (c : Criteria) (e : Event) : Bool :=
  let q := lowerStr (trimStr c.queryText)
  dateMask c e &&
  (c.selected.isEmpty || has_any e.cats c.selected) &&
  (q == "" || (subIn q (lowerStr e.title) || subIn q (lowerStr (pyStr e.place))))

/-- The ordering stated by the specification of the query engine: ascending
by (start date, title). -/
def specLe (a b : Event) : Prop :=
  ∃ da db, to_date a.start = some da ∧ to_date b.start = some db ∧
    (ymdLtB da db = true ∨ (da = db ∧ pyStrLt b.title a.title = false))

/-- Lookup with default on a plain string-keyed association list. -/
def dgetD (m : List (String × PyVal)) (k : String) (d : PyVal) : PyVal :=
  (assocFind m k).getD d

/-- Well-shapedness of the title fields of a raw record: when the title
slot is truthy it is a mapping, and when its rendered field is truthy it is
a string (so `.strip()` applies). -/
def goodTitleB (m : List (String × PyVal)) : Bool :=
  let t0 := dgetD m "title" .none
  if pyTruthy t0 then
    match t0 with
    | .dict tm =>
      let t2 := dgetD tm "rendered" (.str "")
      if pyTruthy t2 then (match t2 with | .str _ => true | _ => false) else true
    | _ => false
  else true

/-- The custom-field bag `parse_event` selects: `acf`, else `meta`, else
an empty mapping. -/
def acfSel (m : List (String × PyVal)) : PyVal :=
  let a0 := dgetD m "acf" .none
  if pyTruthy a0 then a0
  else
    let m0 := dgetD m "meta" .none
    if pyTruthy m0 then m0 else .dict []

/-- Well-shapedness of the selected custom-field bag: it is a mapping, and
when the place chain reaches a truthy nested map field that field is a
mapping too. -/
def goodAcfVal (a : PyVal) : Bool :=
  match a with
  | .dict am =>
    let p0 := dgetD am "helyszin_rovid_neve" .none
    if pyTruthy p0 then true
    else
      let tk := dgetD am "esemeny_terkep" .none
      if pyTruthy tk then (match tk with | .dict _ => true | _ => false) else true
  | _ => false

/-- Well-shapedness of the category ids: the categories slot is iterable
and every iterated id coerces with `int()`. -/
def goodCatsB (m : List (String × PyVal)) : Bool :=
  let c0 := dgetD m "categories" (.list [])
  let ci := if pyTruthy c0 then c0 else .list []
  match pyIterate ci with
  | .ok ids => ids.all (fun cid => match pyInt cid with | .ok _ => true | .error _ => false)
  | .error _ => false

/-- A raw record shaped so that every `parse_event` field access finds its
defined fallback instead of raising: the record is a mapping and its
title / custom-field / category parts are well-shaped as above. -/
def goodPost (post : PyVal) : Bool :=
  match post with
  | .dict m => goodTitleB m && goodAcfVal (acfSel m) && goodCatsB m
  | _ => false

/-- A category page entry carrying an integer id and a name. -/
def catEntry (kv : Int × String) : PyVal :=
  .dict [("id", .int kv.1), ("name", .str kv.2)]

/-- Scenario for the batch-filtering claim: one post page whose single
record has no custom-field bag at all, hence no start date. -/
def envC3 : WEnv where
  catsPage := fun _ => .resp ⟨200, .list [], []⟩
  postsPage := fun _ => .resp ⟨200, .list [.dict []], []⟩
  nowRun := "2024-01-01T00:00:00Z"
  nowSave := "2024-01-01T00:00:00Z"
  saveFail := Option.none

/-- Scenario for the total-page claim: page 1 carries a non-numeric
`X-WP-TotalPages` header value. -/
def envC8 : WEnv where
  catsPage := fun _ => .resp ⟨200, .list [], []⟩
  postsPage := fun _ => .resp ⟨200, .list [], [("X-WP-TotalPages", "abc")]⟩
  nowRun := "2024-01-01T00:00:00Z"
  nowSave := "2024-01-01T00:00:00Z"
  saveFail := Option.none

/-! ## Lemmas: decimal strings -/

theorem dChar_toNat {n : Nat} (h : n < 10) : (dChar n).toNat = 48 + n := by
  unfold dChar
  interval_cases n <;> decide

theorem isDigitCh_dChar {n : Nat} (h : n < 10) : isDigitCh (dChar n) = true := by
  simp only [isDigitCh, dChar_toNat h, Bool.and_eq_true, decide_eq_true_eq]
  omega

theorem digitVal_dChar {n : Nat} (h : n < 10) : digitVal (dChar n) = some n := by
  unfold digitVal
  rw [dChar_toNat h, if_pos (by omega)]
  congr 1
  omega

theorem digitVal_some {c : Char} {n : Nat} (h : digitVal c = some n) :
    c = dChar n ∧ n < 10 := by
  unfold digitVal at h
  split at h
  · rename_i hc
    simp only [Option.some.injEq] at h
    refine ⟨?_, by omega⟩
    rw [← h]
    unfold dChar
    have h48 : 48 + (c.toNat - 48) = c.toNat := by omega
    rw [h48, Char.ofNat_toNat]
  · exact absurd h (by simp)

theorem natCharsAux_digits (fuel n : Nat) : (natCharsAux fuel n).all isDigitCh = true := by
  induction fuel generalizing n with
  | zero => rfl
  | succ f ih =>
    unfold natCharsAux
    split
    · rfl
    · rw [List.all_append, ih (n / 10)]
      simp [isDigitCh_dChar (Nat.mod_lt n (by norm_num))]

theorem natCharsAux_foldl (fuel n acc : Nat) (h : n ≤ fuel) :
    (natCharsAux fuel n).foldl (fun a c => a * 10 + (c.toNat - 48)) acc =
      acc * 10 ^ (natCharsAux fuel n).length + n := by
  induction fuel generalizing n acc with
  | zero =>
    interval_cases n
    simp [natCharsAux]
  | succ f ih =>
    unfold natCharsAux
    split
    · rename_i h0
      subst h0
      simp
    · rename_i h0
      rw [List.foldl_append, ih (n / 10) acc
        (by
          have := Nat.div_lt_self (Nat.pos_of_ne_zero h0) (by norm_num : 1 < 10)
          omega)]
      simp only [List.foldl_cons, List.foldl_nil, List.length_append, List.length_cons,
        List.length_nil]
      rw [dChar_toNat (Nat.mod_lt n (by norm_num))]
      have hsub : 48 + n % 10 - 48 = n % 10 := by omega
      rw [hsub]
      calc (acc * 10 ^ (natCharsAux f (n / 10)).length + n / 10) * 10 + n % 10
          = acc * (10 ^ (natCharsAux f (n / 10)).length * 10) + (10 * (n / 10) + n % 10) := by
            ring
        _ = acc * 10 ^ ((natCharsAux f (n / 10)).length + (0 + 1)) + n := by
            rw [Nat.div_add_mod]
            ring_nf

theorem natChars_ne_nil {n : Nat} (h : n ≠ 0) : natChars n ≠ [] := by
  unfold natChars
  cases n with
  | zero => exact absurd rfl h
  | succ m =>
    unfold natCharsAux
    simp

theorem natChars_digits (n : Nat) : (natChars n).all isDigitCh = true :=
  natCharsAux_digits n n

theorem parseDigits_natChars {n : Nat} (h : n ≠ 0) : parseDigits (natChars n) = some n := by
  unfold parseDigits
  rw [if_neg (by simpa [List.isEmpty_iff] using natChars_ne_nil h), if_pos (natChars_digits n)]
  have := natCharsAux_foldl n n 0 (le_refl n)
  unfold natChars
  rw [this]
  simp

theorem digit_not_ws {c : Char} (h : isDigitCh c = true) : isPyWs c = false := by
  by_contra hw
  rw [Bool.not_eq_false] at hw
  simp only [isPyWs, Bool.or_eq_true, decide_eq_true_eq] at hw
  rcases hw with ((((h1 | h1) | h1) | h1) | h1) | h1 <;> (subst h1; revert h; decide)

theorem dropWhile_eq_self_of {p : Char → Bool} {cs : List Char}
    (h : ∀ c ∈ cs, p c = false) : cs.dropWhile p = cs := by
  cases cs with
  | nil => rfl
  | cons a l =>
    rw [List.dropWhile_cons]
    simp [h a (by simp)]

theorem trimChars_eq_self {cs : List Char} (h : ∀ c ∈ cs, isPyWs c = false) :
    trimChars cs = cs := by
  unfold trimChars
  rw [dropWhile_eq_self_of h,
    dropWhile_eq_self_of (fun c hc => h c (List.mem_reverse.mp hc))]
  exact List.reverse_reverse cs

theorem natChars_not_ws {n : Nat} {c : Char} (hc : c ∈ natChars n) : isPyWs c = false :=
  digit_not_ws (by
    have := natChars_digits n
    rw [List.all_eq_true] at this
    exact this c hc)

theorem pyIntChars_natChars {n : Nat} (h : n ≠ 0) :
    pyIntChars (natChars n) = some (n : Int) := by
  obtain ⟨c, rest, hcr⟩ : ∃ c rest, natChars n = c :: rest := by
    cases hc : natChars n with
    | nil => exact absurd hc (natChars_ne_nil h)
    | cons c rest => exact ⟨c, rest, rfl⟩
  have hdig : isDigitCh c = true := by
    have := natChars_digits n
    rw [hcr, List.all_cons, Bool.and_eq_true] at this
    exact this.1
  rw [hcr]
  simp only [pyIntChars]
  rw [if_neg (by intro he; subst he; revert hdig; decide),
    if_neg (by intro he; subst he; revert hdig; decide)]
  rw [← hcr, parseDigits_natChars h]
  rfl

/-- Python `int(str(i))` recovers the integer: the decimal rendering parses
back to itself. -/
theorem pyIntParse_intToStr (i : Int) : pyIntParse (intToStr i) = some i := by
  unfold pyIntParse intToStr
  split
  · rename_i hneg
    have habs : i.natAbs ≠ 0 := by omega
    unfold natToStr
    rw [if_neg habs]
    have hd : ("-" ++ (⟨natChars i.natAbs⟩ : String)).data = '-' :: natChars i.natAbs := by
      rw [String.data_append]
      rfl
    rw [hd, trimChars_eq_self (by
      intro c hc
      rcases List.mem_cons.mp hc with h1 | h1
      · subst h1; decide
      · exact natChars_not_ws h1)]
    simp only [pyIntChars, if_true]
    rw [parseDigits_natChars habs]
    show some (-(i.natAbs : Int)) = some i
    simp only [Option.some.injEq]
    omega
  · rename_i hpos
    unfold natToStr
    split
    · rename_i h0
      have : i = 0 := by omega
      subst this
      decide
    · rename_i h0
      show pyIntChars (trimChars (natChars i.toNat)) = some i
      rw [trimChars_eq_self (fun c hc => natChars_not_ws hc), pyIntChars_natChars h0]
      congr 1
      omega

/-! ## Lemmas: Python string order -/

theorem char_toNat_inj {a b : Char} (h : a.toNat = b.toNat) : a = b := by
  rw [← Char.ofNat_toNat a, ← Char.ofNat_toNat b, h]

theorem pyListLt_irrefl (cs : List Char) : pyListLt cs cs = false := by
  induction cs with
  | nil => rfl
  | cons a l ih => simp [pyListLt, ih]

theorem pyListLt_trans : ∀ {a b c : List Char},
    pyListLt a b = true → pyListLt b c = true → pyListLt a c = true := by
  intro a
  induction a with
  | nil =>
    intro b c h1 h2
    cases c with
    | nil =>
      cases b with
      | nil => exact h1
      | cons y ys => exact absurd h2 (by simp [pyListLt])
    | cons z zs => rfl
  | cons x xs ih =>
    intro b c h1 h2
    cases b with
    | nil => exact absurd h1 (by simp [pyListLt])
    | cons y ys =>
      cases c with
      | nil => exact absurd h2 (by simp [pyListLt])
      | cons z zs =>
        simp only [pyListLt] at h1 h2 ⊢
        split at h1
        · rename_i hxy
          split at h2
          · rename_i hyz
            rw [if_pos (by omega)]
          · split at h2
            · exact absurd h2 (by simp)
            · rename_i hyz1 hyz2
              rw [if_pos (by omega)]
        · split at h1
          · exact absurd h1 (by simp)
          · rename_i hxy1 hxy2
            split at h2
            · rename_i hyz
              rw [if_pos (by omega)]
            · split at h2
              · exact absurd h2 (by simp)
              · rename_i hyz1 hyz2
                rw [if_neg (by omega), if_neg (by omega)]
                exact ih h1 h2

theorem pyListLt_conn : ∀ {a b : List Char},
    pyListLt a b = false → pyListLt b a = false → a = b := by
  intro a
  induction a with
  | nil =>
    intro b h1 h2
    cases b with
    | nil => rfl
    | cons y ys => exact absurd h1 (by simp [pyListLt])
  | cons x xs ih =>
    intro b h1 h2
    cases b with
    | nil => exact absurd h2 (by simp [pyListLt])
    | cons y ys =>
      simp only [pyListLt] at h1 h2
      split at h1
      · exact absurd h1 (by simp)
      · split at h1
        · rename_i hxy hyx
          rw [if_pos hyx] at h2
          exact absurd h2 (by simp)
        · rename_i hxy hyx
          rw [if_neg hxy, if_neg hyx] at h2
          have hx : x = y := char_toNat_inj (by omega)
          rw [hx, ih h1 h2]

theorem pyListLt_asymm {a b : List Char} (h : pyListLt a b = true) :
    pyListLt b a = false := by
  by_contra hc
  rw [Bool.not_eq_false] at hc
  have := pyListLt_trans h hc
  rw [pyListLt_irrefl] at this
  exact absurd this (by simp)

theorem pyListLt_append : ∀ {xs ys u v : List Char}, xs.length = ys.length →
    (pyListLt (xs ++ u) (ys ++ v) = true ↔
      (pyListLt xs ys = true ∨ (xs = ys ∧ pyListLt u v = true))) := by
  intro xs
  induction xs with
  | nil =>
    intro ys u v hl
    cases ys with
    | nil => simp [pyListLt]
    | cons y ys => simp at hl
  | cons x xs ih =>
    intro ys u v hl
    cases ys with
    | nil => simp at hl
    | cons y ys =>
      simp only [List.length_cons] at hl
      simp only [List.cons_append, pyListLt, List.cons.injEq]
      split
      · simp
      · split
        · rename_i h1 h2
          have hxy : ¬ (x = y ∧ xs = ys) := by
            rintro ⟨he, _⟩
            subst he
            omega
          simp [hxy]
        · rename_i h1 h2
          have hx : x = y := char_toNat_inj (by omega)
          have hl2 : xs.length = ys.length := by omega
          simp only [List.append_eq]
          rw [ih hl2]
          simp [hx]

theorem pyListLt_cons_same {c : Char} {a b : List Char} :
    pyListLt (c :: a) (c :: b) = pyListLt a b := by
  simp [pyListLt]

theorem dChar_inj {a b : Nat} (ha : a < 10) (hb : b < 10) (h : dChar a = dChar b) : a = b := by
  have := congrArg Char.toNat h
  rw [dChar_toNat ha, dChar_toNat hb] at this
  omega

theorem pad2_lt {m1 m2 : Nat} (h1 : m1 ≤ 99) (h2 : m2 ≤ 99) :
    (pyListLt (pad2 m1) (pad2 m2) = true ↔ m1 < m2) := by
  simp only [pad2, pyListLt]
  rw [dChar_toNat (by omega : m1 / 10 % 10 < 10), dChar_toNat (by omega : m2 / 10 % 10 < 10),
    dChar_toNat (by omega : m1 % 10 < 10), dChar_toNat (by omega : m2 % 10 < 10)]
  split_ifs <;> simp <;> omega

theorem pad2_eq {m1 m2 : Nat} (h1 : m1 ≤ 99) (h2 : m2 ≤ 99) :
    (pad2 m1 = pad2 m2 ↔ m1 = m2) := by
  constructor
  · intro h
    simp only [pad2, List.cons.injEq, and_true] at h
    obtain ⟨ha, hb⟩ := h
    have e1 := dChar_inj (by omega) (by omega) ha
    have e2 := dChar_inj (by omega) (by omega) hb
    omega
  · intro h
    rw [h]

theorem pad4_lt {m1 m2 : Nat} (h1 : m1 ≤ 9999) (h2 : m2 ≤ 9999) :
    (pyListLt (pad4 m1) (pad4 m2) = true ↔ m1 < m2) := by
  simp only [pad4, pyListLt]
  rw [dChar_toNat (by omega : m1 / 1000 % 10 < 10), dChar_toNat (by omega : m2 / 1000 % 10 < 10),
    dChar_toNat (by omega : m1 / 100 % 10 < 10), dChar_toNat (by omega : m2 / 100 % 10 < 10),
    dChar_toNat (by omega : m1 / 10 % 10 < 10), dChar_toNat (by omega : m2 / 10 % 10 < 10),
    dChar_toNat (by omega : m1 % 10 < 10), dChar_toNat (by omega : m2 % 10 < 10)]
  split_ifs <;> simp <;> omega

theorem pad4_eq {m1 m2 : Nat} (h1 : m1 ≤ 9999) (h2 : m2 ≤ 9999) :
    (pad4 m1 = pad4 m2 ↔ m1 = m2) := by
  constructor
  · intro h
    simp only [pad4, List.cons.injEq, and_true] at h
    obtain ⟨ha, hb, hc, hd⟩ := h
    have e1 := dChar_inj (by omega) (by omega) ha
    have e2 := dChar_inj (by omega) (by omega) hb
    have e3 := dChar_inj (by omega) (by omega) hc
    have e4 := dChar_inj (by omega) (by omega) hd
    omega
  · intro h
    rw [h]

/-- On fixed-width renderings, the Python string order agrees with the
date order: sorting by the ISO start string is sorting by the date. -/
theorem renderYmd_lt {t1 t2 : Ymd}
    (h1 : t1.y ≤ 9999) (h2 : t1.m ≤ 99) (h3 : t1.d ≤ 99)
    (h4 : t2.y ≤ 9999) (h5 : t2.m ≤ 99) (h6 : t2.d ≤ 99) :
    (pyStrLt (renderYmd t1) (renderYmd t2) = true ↔ ymdLtB t1 t2 = true) := by
  show pyListLt (pad4 t1.y ++ '-' :: (pad2 t1.m ++ '-' :: pad2 t1.d))
      (pad4 t2.y ++ '-' :: (pad2 t2.m ++ '-' :: pad2 t2.d)) = true ↔ _
  rw [pyListLt_append (by simp [pad4]), pyListLt_cons_same,
    pyListLt_append (by simp [pad2]), pyListLt_cons_same,
    pad4_lt h1 h4, pad4_eq h1 h4, pad2_lt h2 h5, pad2_eq h2 h5, pad2_lt h3 h6]
  simp only [ymdLtB, Bool.or_eq_true, Bool.and_eq_true, decide_eq_true_eq]

theorem renderYmd_inj {t1 t2 : Ymd}
    (h1 : t1.y ≤ 9999) (h2 : t1.m ≤ 99) (h3 : t1.d ≤ 99)
    (h4 : t2.y ≤ 9999) (h5 : t2.m ≤ 99) (h6 : t2.d ≤ 99)
    (h : renderYmd t1 = renderYmd t2) : t1 = t2 := by
  have hd2 : pad4 t1.y ++ '-' :: (pad2 t1.m ++ '-' :: pad2 t1.d) =
      pad4 t2.y ++ '-' :: (pad2 t2.m ++ '-' :: pad2 t2.d) := congrArg String.data h
  obtain ⟨e4, erest⟩ := List.append_inj hd2 (by simp [pad4])
  injection erest with _ erest
  obtain ⟨e2m, erest2⟩ := List.append_inj erest (by simp [pad2])
  injection erest2 with _ e2d
  have ey := (pad4_eq h1 h4).mp e4
  have em := (pad2_eq h2 h5).mp e2m
  have edd := (pad2_eq h3 h6).mp e2d
  cases t1
  cases t2
  simp_all

/-- A successfully parsed ISO date string is exactly the canonical
rendering of the parsed date, and the date is calendar-valid. -/
theorem fromIso_some {s : String} {t : Ymd} (h : fromIso s = some t) :
    s = renderYmd t ∧ validYmd t.y t.m t.d = true := by
  unfold fromIso at h
  split at h
  · rename_i c1 c2 c3 c4 hh1 c5 c6 hh2 c7 c8 heq
    split at h
    · rename_i hdash
      obtain ⟨hd1, hd2⟩ := hdash
      subst hd1
      subst hd2
      split at h
      · rename_i a b c d e f g hh ha hb hc hdd he hf hg hh8
        split at h
        · rename_i hvalid
          simp only [Option.some.injEq] at h
          subst h
          obtain ⟨ea, ha10⟩ := digitVal_some ha
          obtain ⟨eb, hb10⟩ := digitVal_some hb
          obtain ⟨ec, hc10⟩ := digitVal_some hc
          obtain ⟨ed, hd10⟩ := digitVal_some hdd
          obtain ⟨ee, he10⟩ := digitVal_some he
          obtain ⟨ef, hf10⟩ := digitVal_some hf
          obtain ⟨eg, hg10⟩ := digitVal_some hg
          obtain ⟨eh, hh10⟩ := digitVal_some hh8
          refine ⟨?_, hvalid⟩
          apply String.ext
          rw [heq]
          show _ = pad4 (1000 * a + 100 * b + 10 * c + d) ++
            '-' :: (pad2 (10 * e + f) ++ '-' :: pad2 (10 * g + hh))
          simp only [pad4, pad2, List.cons_append, List.nil_append]
          rw [ea, eb, ec, ed, ee, ef, eg, eh]
          refine List.cons_eq_cons.mpr ⟨congrArg dChar (by omega), ?_⟩
          refine List.cons_eq_cons.mpr ⟨congrArg dChar (by omega), ?_⟩
          refine List.cons_eq_cons.mpr ⟨congrArg dChar (by omega), ?_⟩
          refine List.cons_eq_cons.mpr ⟨congrArg dChar (by omega), ?_⟩
          refine List.cons_eq_cons.mpr ⟨rfl, ?_⟩
          refine List.cons_eq_cons.mpr ⟨congrArg dChar (by omega), ?_⟩
          refine List.cons_eq_cons.mpr ⟨congrArg dChar (by omega), ?_⟩
          refine List.cons_eq_cons.mpr ⟨rfl, ?_⟩
          refine List.cons_eq_cons.mpr ⟨congrArg dChar (by omega), ?_⟩
          refine List.cons_eq_cons.mpr ⟨congrArg dChar (by omega), rfl⟩
        · exact absurd h (by simp)
      · exact absurd h (by simp)
    · exact absurd h (by simp)
  · exact absurd h (by simp)

/-! ## Lemmas: association lists and effectful filtering -/

theorem catSet_of_not_mem {m : CatMap} {k : Int} {v : String}
    (h : catFind m k = Option.none) : catSet m k v = m ++ [(k, v)] := by
  induction m with
  | nil => rfl
  | cons kv rest ih =>
    obtain ⟨k1, v1⟩ := kv
    simp only [catFind] at h
    by_cases hk : k1 = k
    · rw [if_pos hk] at h
      exact absurd h (by simp)
    · rw [if_neg hk] at h
      simp only [catSet]
      rw [if_neg hk, ih h]
      simp

theorem catFind_append_right {a b : CatMap} {k : Int} (h : catFind a k = Option.none) :
    catFind (a ++ b) k = catFind b k := by
  induction a with
  | nil => rfl
  | cons kv rest ih =>
    obtain ⟨k1, v1⟩ := kv
    simp only [catFind] at h
    by_cases hk : k1 = k
    · rw [if_pos hk] at h
      exact absurd h (by simp)
    · rw [if_neg hk] at h
      simp only [List.cons_append, catFind]
      rw [if_neg hk]
      exact ih h

theorem filterE_ok_of {α : Type} {f : α → Except PyErr Bool} {g : α → Bool} {l : List α}
    (h : ∀ x ∈ l, f x = .ok (g x)) : filterE f l = .ok (l.filter g) := by
  induction l with
  | nil => rfl
  | cons x xs ih =>
    simp only [filterE]
    rw [h x (by simp), ih (fun y hy => h y (by simp [hy])), List.filter_cons]
    rfl

theorem filterE_mem {α : Type} {f : α → Except PyErr Bool} {l l2 : List α}
    (h : filterE f l = .ok l2) : ∀ x ∈ l2, x ∈ l ∧ f x = .ok true := by
  induction l generalizing l2 with
  | nil =>
    injection h with h2
    subst h2
    intro x hx
    exact absurd hx (by simp)
  | cons a xs ih =>
    simp only [filterE] at h
    cases hfa : f a with
    | error e =>
      rw [hfa] at h
      exact Except.noConfusion h
    | ok b =>
      rw [hfa] at h
      cases hrest : filterE f xs with
      | error e =>
        rw [hrest] at h
        exact Except.noConfusion h
      | ok rest =>
        rw [hrest] at h
        injection h with h2
        subst h2
        intro x hx
        cases b with
        | true =>
          rcases List.mem_cons.mp hx with he | ht
          · subst he
            exact ⟨by simp, hfa⟩
          · obtain ⟨hm, hf⟩ := ih hrest x ht
            exact ⟨by simp [hm], hf⟩
        | false =>
          obtain ⟨hm, hf⟩ := ih hrest x hx
          exact ⟨by simp [hm], hf⟩

theorem filterE_all_true {α : Type} {f : α → Except PyErr Bool} {l : List α}
    (h : ∀ x ∈ l, f x = .ok true) : filterE f l = .ok l := by
  have h2 := @filterE_ok_of _ _ (fun _ => true) _ h
  simpa using h2

/-! ## Claim C1: atomicity of cache persistence -/

/-- C1 is false as stated: with a previous snapshot in both artifacts, a
write failure injected at the records-envelope write makes the run raise,
yet the category artifact has already been replaced — the on-disk snapshot
after the failed persist differs from the snapshot before it. -/
theorem save_cache_not_atomic_cex :
    (save_cache [(1, "a")] (.list []) "t" (some .atPosts)
      ⟨some (.str "OLD"), some (.str "OLDP")⟩).2 = true ∧
    (save_cache [(1, "a")] (.list []) "t" (some .atPosts)
      ⟨some (.str "OLD"), some (.str "OLDP")⟩).1.cats ≠ some (PyVal.str "OLD") := by
  refine ⟨rfl, ?_⟩
  intro h
  injection h with h2
  exact PyVal.noConfusion h2

/-- C1 (amended): `save_cache` writes the two artifacts sequentially with
no transactional link.  A failure raised at directory creation or at the
category-artifact write leaves the whole snapshot untouched; a failure
raised at the records-envelope write leaves the envelope at its previous
bytes but the category artifact already replaced — so a failed persist
never corrupts the envelope, yet the snapshot as a whole is not
all-or-nothing. -/
theorem save_cache_failure_effects (m : CatMap) (posts : PyVal) (now : String)
    (fail : Option SaveFail) (fs : Fs)
    (hr : (save_cache m posts now fail fs).2 = true) :
    ((fail = some .atMkdir ∨ fail = some .atCats) →
      (save_cache m posts now fail fs).1 = fs) ∧
    (fail = some .atPosts →
      (save_cache m posts now fail fs).1 = ⟨some (serCats m), fs.posts⟩) := by
  constructor
  · rintro (hf | hf) <;> (subst hf; rfl)
  · intro hf
    subst hf
    rfl

theorem save_cache_failure_effects_witness :
    ((some SaveFail.atPosts = some SaveFail.atMkdir ∨
        some SaveFail.atPosts = some SaveFail.atCats) →
      (save_cache [(1, "a")] (.list []) "t" (some .atPosts)
        ⟨Option.none, Option.none⟩).1 = ⟨Option.none, Option.none⟩) ∧
    (some SaveFail.atPosts = some SaveFail.atPosts →
      (save_cache [(1, "a")] (.list []) "t" (some .atPosts)
        ⟨Option.none, Option.none⟩).1 = ⟨some (serCats [(1, "a")]), Option.none⟩) :=
  save_cache_failure_effects [(1, "a")] (.list []) "t" (some .atPosts)
    ⟨Option.none, Option.none⟩ rfl

/-! ## Claim C4: retry policy of safe_get -/

/-- C4 is false in its "non-2xx status" clause: a 304 response is non-2xx,
but `raise_for_status` raises only for 4xx/5xx, so `safe_get` returns the
response successfully on the first attempt instead of propagating an
error. -/
theorem runAttempt_timeout (m : String) :
    runAttempt (.readTimeout m) = .error (.readTimeout m) := rfl

theorem safe_get_non2xx_cex :
    safe_get (fun _ => .resp ⟨304, .none, []⟩) 3 =
      ⟨.ok ⟨304, .none, []⟩, 1, 0⟩ := rfl

/-- C4 (amended, "non-2xx status" corrected to "4xx/5xx status"): with the
source's 3 attempts, (1) two read timeouts followed by a non-error response
return that response after exactly 3 attempts and 2 sleeps; (2) timeouts on
all attempts propagate the LAST timeout exception; (3) a connection error
or HTTP-status error (4xx/5xx) raised on attempt `k` after `k - 1` timeouts
propagates immediately from attempt `k`, with no retry. -/
theorem safe_get_retry_policy :
    (∀ (att : Nat → GetResult) (r : Response) (m1 m2 : String),
      att 1 = .readTimeout m1 → att 2 = .readTimeout m2 → att 3 = .resp r →
      ¬(400 ≤ r.status ∧ r.status < 600) →
      safe_get att 3 = ⟨.ok r, 3, 2⟩) ∧
    (∀ (att : Nat → GetResult) (msg : Nat → String),
      (∀ i, 1 ≤ i → i ≤ 3 → att i = .readTimeout (msg i)) →
      safe_get att 3 = ⟨.error (.readTimeout (msg 3)), 3, 2⟩) ∧
    (∀ (att : Nat → GetResult) (e : PyErr) (msg : Nat → String) (k : Nat),
      1 ≤ k → k ≤ 3 →
      (∀ i, 1 ≤ i → i < k → att i = .readTimeout (msg i)) →
      runAttempt (att k) = .error e →
      (∀ mm, e ≠ .readTimeout mm) →
      safe_get att 3 = ⟨.error e, k, k - 1⟩) := by
  refine ⟨?_, ?_, ?_⟩
  · intro att r m1 m2 h1 h2 h3 hstat
    have e3 : runAttempt (att 3) = .ok r := by
      rw [h3]
      simp [runAttempt, hstat]
    simp [safe_get, safe_get_aux, h1, h2, runAttempt_timeout, e3]
  · intro att msg h
    simp [safe_get, safe_get_aux, h 1 (by omega) (by omega), h 2 (by omega) (by omega),
      h 3 (by omega) (by omega), runAttempt_timeout]
  · intro att e msg k hk1 hk3 hpre hrun hne
    interval_cases k
    · simp only [safe_get, safe_get_aux]
      rw [hrun]
      cases e with
      | readTimeout mm => exact absurd rfl (hne mm)
      | connError mm => simp
      | httpError s => simp
      | valueError mm => simp
      | typeError mm => simp
      | attributeError mm => simp
    · simp only [safe_get, safe_get_aux, hpre 1 (by omega) (by omega), runAttempt_timeout]
      rw [hrun]
      cases e with
      | readTimeout mm => exact absurd rfl (hne mm)
      | connError mm => simp
      | httpError s => simp
      | valueError mm => simp
      | typeError mm => simp
      | attributeError mm => simp
    · simp only [safe_get, safe_get_aux, hpre 1 (by omega) (by omega),
        hpre 2 (by omega) (by omega), runAttempt_timeout]
      rw [hrun]
      cases e with
      | readTimeout mm => exact absurd rfl (hne mm)
      | connError mm => simp
      | httpError s => simp
      | valueError mm => simp
      | typeError mm => simp
      | attributeError mm => simp

theorem safe_get_retry_policy_witness :
    safe_get (fun i => if i ≤ 2 then .readTimeout "t" else .resp ⟨200, .none, []⟩) 3 =
      ⟨.ok ⟨200, .none, []⟩, 3, 2⟩ ∧
    safe_get (fun _ => .readTimeout "t") 3 = ⟨.error (.readTimeout "t"), 3, 2⟩ ∧
    safe_get (fun _ => .connError "boom") 3 = ⟨.error (.connError "boom"), 1, 0⟩ :=
  ⟨safe_get_retry_policy.1 _ ⟨200, .none, []⟩ "t" "t" rfl rfl rfl (by decide),
   safe_get_retry_policy.2.1 _ (fun _ => "t") (fun i h1 h2 => rfl),
   safe_get_retry_policy.2.2 _ (.connError "boom") (fun _ => "t") 1 (by omega) (by omega)
     (fun i h1 h2 => absurd h2 (by omega))
     rfl (fun mm h => PyErr.noConfusion h)⟩

/-! ## Claim C2: totality of the normalizer -/

theorem exbind_ok {α β : Type} (a : α) (f : α → Except PyErr β) :
    (Except.ok a >>= f) = f a := rfl

/-- C2 is false as stated: a raw record whose title field is a truthy
non-mapping (here the string "x") makes `(post.get("title") or ...)
.get(...)` raise `AttributeError` — `parse_event` does not survive
arbitrary JSON-shaped input. -/
theorem parse_event_raises_cex :
    parse_event (.dict [("title", .str "x")]) [] =
      .error (.attributeError "object has no attribute get") := rfl

theorem titleStep_ok {m : List (String × PyVal)} (h : goodTitleB m = true) :
    ∃ s, titleStep (.dict m) = .ok s := by
  unfold titleStep goodTitleB at *
  rw [show pyGet (.dict m) "title" PyVal.none = .ok (dgetD m "title" .none) from rfl,
    exbind_ok]
  by_cases ht : pyTruthy (dgetD m "title" PyVal.none) = true
  · rw [if_pos ht] at h ⊢
    cases htv : dgetD m "title" PyVal.none with
    | dict tm =>
      rw [htv] at h
      dsimp only at h ⊢
      rw [show pyGet (.dict tm) "rendered" (PyVal.str "") =
        .ok (dgetD tm "rendered" (.str "")) from rfl, exbind_ok]
      by_cases h2 : pyTruthy (dgetD tm "rendered" (PyVal.str "")) = true
      · rw [if_pos h2] at h ⊢
        cases h2v : dgetD tm "rendered" (PyVal.str "") with
        | str s => exact ⟨trimStr s, rfl⟩
        | none => rw [h2v] at h; exact Bool.noConfusion h
        | bool b => rw [h2v] at h; exact Bool.noConfusion h
        | int n => rw [h2v] at h; exact Bool.noConfusion h
        | list xs => rw [h2v] at h; exact Bool.noConfusion h
        | dict dm => rw [h2v] at h; exact Bool.noConfusion h
      · rw [if_neg h2]
        exact ⟨trimStr "", rfl⟩
    | none => rw [htv] at h; exact Bool.noConfusion h
    | bool b => rw [htv] at h; exact Bool.noConfusion h
    | int n => rw [htv] at h; exact Bool.noConfusion h
    | str s => rw [htv] at h; exact Bool.noConfusion h
    | list xs => rw [htv] at h; exact Bool.noConfusion h
  · rw [if_neg ht]
    exact ⟨trimStr "", rfl⟩

theorem acfStep_eq (m : List (String × PyVal)) : acfStep (.dict m) = .ok (acfSel m) := by
  unfold acfStep acfSel
  rw [show pyGet (.dict m) "acf" PyVal.none = .ok (dgetD m "acf" .none) from rfl, exbind_ok]
  by_cases h1 : pyTruthy (dgetD m "acf" PyVal.none) = true
  · rw [if_pos h1, if_pos h1]
    rfl
  · rw [if_neg h1, if_neg h1]
    rw [show pyGet (.dict m) "meta" PyVal.none = .ok (dgetD m "meta" .none) from rfl,
      exbind_ok]
    rfl

theorem placeStep_ok {a : PyVal} (h : goodAcfVal a = true) : ∃ p, placeStep a = .ok p := by
  cases a with
  | dict am =>
    unfold goodAcfVal at h
    unfold placeStep
    dsimp only at h
    rw [show pyGet (.dict am) "helyszin_rovid_neve" PyVal.none =
      .ok (dgetD am "helyszin_rovid_neve" .none) from rfl, exbind_ok]
    by_cases h1 : pyTruthy (dgetD am "helyszin_rovid_neve" PyVal.none) = true
    · rw [if_pos h1]
      exact ⟨_, rfl⟩
    · rw [if_neg h1] at h ⊢
      rw [show pyGet (.dict am) "esemeny_terkep" PyVal.none =
        .ok (dgetD am "esemeny_terkep" .none) from rfl, exbind_ok]
      by_cases h2 : pyTruthy (dgetD am "esemeny_terkep" PyVal.none) = true
      · rw [if_pos h2] at h ⊢
        cases h2v : dgetD am "esemeny_terkep" PyVal.none with
        | dict tm =>
          dsimp only
          rw [show pyGet (.dict tm) "city" PyVal.none = .ok (dgetD tm "city" .none) from rfl,
            exbind_ok]
          exact ⟨_, rfl⟩
        | none => rw [h2v] at h; exact Bool.noConfusion h
        | bool b => rw [h2v] at h; exact Bool.noConfusion h
        | int n => rw [h2v] at h; exact Bool.noConfusion h
        | str s => rw [h2v] at h; exact Bool.noConfusion h
        | list xs => rw [h2v] at h; exact Bool.noConfusion h
      · rw [if_neg h2]
        exact ⟨_, rfl⟩
  | none => exact Bool.noConfusion h
  | bool b => exact Bool.noConfusion h
  | int n => exact Bool.noConfusion h
  | str s => exact Bool.noConfusion h
  | list xs => exact Bool.noConfusion h

theorem mapM_ok_of_all {ids : List PyVal} {cm : CatMap}
    (h : ids.all (fun cid =>
      match pyInt cid with | .ok _ => true | .error _ => false) = true) :
    ∃ ns, ids.mapM (fun cid => do
      let k ← pyInt cid
      pure ((catFind cm k).getD (pyStr cid))) = Except.ok ns := by
  induction ids with
  | nil => exact ⟨[], rfl⟩
  | cons c rest ih =>
    rw [List.all_cons, Bool.and_eq_true] at h
    obtain ⟨hc, hrest⟩ := h
    obtain ⟨ns, hns⟩ := ih hrest
    cases hpc : pyInt c with
    | error e =>
      rw [hpc] at hc
      exact Bool.noConfusion hc
    | ok k =>
      refine ⟨(catFind cm k).getD (pyStr c) :: ns, ?_⟩
      rw [List.mapM_cons]
      have hf : (do
          let k2 ← pyInt c
          pure ((catFind cm k2).getD (pyStr c)) : Except PyErr String) =
          .ok ((catFind cm k).getD (pyStr c)) := by
        rw [hpc]
        rfl
      rw [hf, exbind_ok, hns]
      rfl

theorem catsStep_ok {m : List (String × PyVal)} {cm : CatMap} (h : goodCatsB m = true) :
    ∃ s, catsStep (.dict m) cm = .ok s := by
  unfold goodCatsB at h
  unfold catsStep
  dsimp only at h
  rw [show pyGet (.dict m) "categories" (PyVal.list []) =
    .ok (dgetD m "categories" (.list [])) from rfl, exbind_ok]
  cases hit : pyIterate
      (if pyTruthy (dgetD m "categories" (PyVal.list [])) = true
       then dgetD m "categories" (PyVal.list []) else PyVal.list []) with
  | error e =>
    rw [hit] at h
    exact Bool.noConfusion h
  | ok ids =>
    rw [hit] at h
    dsimp only at h ⊢
    rw [hit, exbind_ok]
    obtain ⟨ns, hns⟩ := mapM_ok_of_all h
    rw [hns, exbind_ok]
    exact ⟨_, rfl⟩

theorem mapM_catNames (ids : List Int) (cm : CatMap) :
    (ids.map PyVal.int).mapM (fun cid => do
      let k ← pyInt cid
      pure ((catFind cm k).getD (pyStr cid))) =
      Except.ok (ids.map (fun i => (catFind cm i).getD (intToStr i))) := by
  induction ids with
  | nil => rfl
  | cons i rest ih =>
    rw [List.map_cons, List.mapM_cons]
    rw [show (do
        let k ← pyInt (PyVal.int i)
        pure ((catFind cm k).getD (pyStr (PyVal.int i))) : Except PyErr String) =
      .ok ((catFind cm i).getD (intToStr i)) from rfl]
    rw [exbind_ok, ih]
    rfl

/-- C2 (amended): `parse_event` never raises on a well-shaped record: the
record is a mapping whose title slot (when truthy) is a mapping with a
string (or falsy) rendered field, whose selected custom-field bag is a
mapping with a mapping (or falsy) nested map field, and whose category ids
are iterable and `int()`-coercible; then every field receives its defined
fallback.  Moreover a category id with no table entry renders as its own
string form: on a record carrying integer category ids, the category cell
joins, for each id, the table name or the id's decimal string. -/
theorem parse_event_total_amended :
    (∀ (post : PyVal) (cm : CatMap), goodPost post = true →
      (parse_event post cm).isOk = true) ∧
    (∀ (ids : List Int) (cm : CatMap),
      parse_event (.dict [("categories", .list (ids.map PyVal.int))]) cm =
        .ok ⟨"", Option.none, Option.none, .str "–",
          (if ids.isEmpty then "–"
           else joinComma (ids.map (fun i => (catFind cm i).getD (intToStr i)))), .str ""⟩) := by
  constructor
  · intro post cm hg
    cases post with
    | dict m =>
      simp only [goodPost, Bool.and_eq_true] at hg
      obtain ⟨⟨ht, ha⟩, hc⟩ := hg
      obtain ⟨ttl, httl⟩ := titleStep_ok ht
      obtain ⟨cs, hcs⟩ := @catsStep_ok _ cm hc
      unfold parse_event
      rw [httl, exbind_ok]
      rw [show linkStep (.dict m) = .ok (if pyTruthy (dgetD m "link" (.str "")) = true
        then dgetD m "link" (.str "") else .str "") from rfl, exbind_ok]
      rw [acfStep_eq, exbind_ok]
      obtain ⟨pl, hpl⟩ := placeStep_ok ha
      cases hsel : acfSel m with
      | dict am =>
        rw [hsel] at hpl
        rw [show pyGet (.dict am) "esemeny_kezdete" PyVal.none =
          .ok (dgetD am "esemeny_kezdete" .none) from rfl, exbind_ok]
        rw [show pyGet (.dict am) "esemeny_vege" PyVal.none =
          .ok (dgetD am "esemeny_vege" .none) from rfl, exbind_ok]
        rw [hpl, exbind_ok, hcs, exbind_ok]
        rfl
      | none => rw [hsel] at ha; exact Bool.noConfusion ha
      | bool b => rw [hsel] at ha; exact Bool.noConfusion ha
      | int n => rw [hsel] at ha; exact Bool.noConfusion ha
      | str s => rw [hsel] at ha; exact Bool.noConfusion ha
      | list xs => rw [hsel] at ha; exact Bool.noConfusion ha
    | none => exact Bool.noConfusion hg
    | bool b => exact Bool.noConfusion hg
    | int n => exact Bool.noConfusion hg
    | str s => exact Bool.noConfusion hg
    | list xs => exact Bool.noConfusion hg
  · intro ids cm
    cases ids with
    | nil => rfl
    | cons i rest =>
      unfold parse_event
      rw [show titleStep (.dict [("categories", .list ((i :: rest).map PyVal.int))]) =
        .ok "" from rfl, exbind_ok]
      rw [show linkStep (.dict [("categories", .list ((i :: rest).map PyVal.int))]) =
        .ok (.str "") from rfl, exbind_ok]
      rw [show acfStep (.dict [("categories", .list ((i :: rest).map PyVal.int))]) =
        .ok (.dict []) from rfl, exbind_ok]
      rw [show pyGet (.dict []) "esemeny_kezdete" PyVal.none = .ok PyVal.none from rfl,
        exbind_ok]
      rw [show pyGet (.dict []) "esemeny_vege" PyVal.none = .ok PyVal.none from rfl,
        exbind_ok]
      rw [show placeStep (.dict []) = .ok (.str "–") from rfl, exbind_ok]
      rw [show catsStep (.dict [("categories", .list ((i :: rest).map PyVal.int))]) cm =
        ((((i :: rest).map PyVal.int).mapM (fun cid => do
            let k ← pyInt cid
            pure ((catFind cm k).getD (pyStr cid))) >>= fun catNames =>
          pure (if catNames.isEmpty then "–" else joinComma catNames)) :
            Except PyErr String) from rfl]
      rw [mapM_catNames, exbind_ok]
      rfl

theorem parse_event_total_amended_witness :
    (parse_event (.dict [("title", .dict [("rendered", .str " Wine Fest ")]),
        ("acf", .dict [("esemeny_kezdete", .str "20240901")]),
        ("categories", .list [.int 5])]) []).isOk = true ∧
    parse_event (.dict [("categories", .list (([5] : List Int).map PyVal.int))]) [] =
      .ok ⟨"", Option.none, Option.none, .str "–",
        (if ([5] : List Int).isEmpty then "–"
         else joinComma (([5] : List Int).map
           (fun i => (catFind [] i).getD (intToStr i)))), .str ""⟩ :=
  ⟨parse_event_total_amended.1 _ [] (by rfl),
   parse_event_total_amended.2 [5] []⟩

/-! ## Claim C3: the orchestrator does not filter batches -/

/-- C3 is false as stated: in a run whose single post page holds one record
without a start date, the batch the worker emits still contains that
event — records without a start date are not filtered out before the
`page_events` signal. -/
theorem worker_emits_unfiltered_cex :
    (fetchWorkerRun envC3 ⟨Option.none, Option.none⟩ 2).map (fun out =>
      (emittedBatches out.1).any (fun b => b.any (fun e => e.start.isNone))) =
      some true := rfl

theorem emittedBatches_append (a b : List Sig) :
    emittedBatches (a ++ b) = emittedBatches a ++ emittedBatches b :=
  List.filterMap_append a b _

theorem workerLoop_batches (env : WEnv) (cm : CatMap) (total : Int)
    (pg : Nat → List PyVal) (evs : Nat → List Event) :
    ∀ (pagesL : List Nat) (P : List PyVal) (sigs : List Sig),
    (∀ p ∈ pagesL, env.postsPage p = .resp ⟨200, .list (pg p), []⟩) →
    (∀ p ∈ pagesL, parseEventsV (.list (pg p)) cm = .ok (evs p)) →
    (workerLoop env cm total pagesL (.list P) sigs).2.2 = true ∧
    emittedBatches (workerLoop env cm total pagesL (.list P) sigs).1 =
      emittedBatches sigs ++ pagesL.map evs := by
  intro pagesL
  induction pagesL with
  | nil =>
    intro P sigs h1 h2
    exact ⟨rfl, by simp [workerLoop]⟩
  | cons p rest ih =>
    intro P sigs h1 h2
    simp only [workerLoop]
    rw [h1 p (by simp)]
    rw [show (safe_get (fun _ => GetResult.resp ⟨200, .list (pg p), []⟩) 3).result =
      .ok ⟨200, .list (pg p), []⟩ from rfl]
    dsimp only
    rw [show pyIterate (PyVal.list (pg p)) = .ok (pg p) from rfl]
    dsimp only
    rw [h2 p (by simp)]
    dsimp only
    obtain ⟨hdone, hbat⟩ := ih (P ++ pg p)
      ((sigs ++ [.status ("Posztok letöltése (" ++ natToStr p ++ ". oldal)…")]) ++
        [.progress p total, .pageEvents (evs p)])
      (fun q hq => h1 q (by simp [hq]))
      (fun q hq => h2 q (by simp [hq]))
    refine ⟨hdone, ?_⟩
    rw [hbat, emittedBatches_append]
    simp [emittedBatches]

/-- C3 (amended): the batch emitted for each page is the full list of
normalized events of that page, with no start-date filtering in the
orchestrator; it is the consumer's batch handler (`App.on_page_events`)
that drops records without a start date before appending to the
accumulated collection. -/
theorem worker_unfiltered_consumer_filters :
    (∀ (env : WEnv) (fs : Fs) (catFuel : Nat) (cm : CatMap) (ps1 : List PyVal)
      (hdrs : List (String × String)) (total : Int) (evs1 : List Event)
      (pg : Nat → List PyVal) (evs : Nat → List Event),
      fetch_category_map env.catsPage 1 [] catFuel = some (.ok cm) →
      env.postsPage 1 = .resp ⟨200, .list ps1, hdrs⟩ →
      headerTotal hdrs = .ok total →
      parseEventsV (.list ps1) cm = .ok evs1 →
      (∀ p ∈ pageList total, env.postsPage p = .resp ⟨200, .list (pg p), []⟩) →
      (∀ p ∈ pageList total, parseEventsV (.list (pg p)) cm = .ok (evs p)) →
      ∃ out, fetchWorkerRun env fs catFuel = some out ∧
        emittedBatches out.1 = evs1 :: (pageList total).map evs) ∧
    (∀ (st : AppState) (b : List Event),
      (on_page_events st b).dfAll = st.dfAll ++ b.filter keepEv) := by
  constructor
  · intro env fs catFuel cm ps1 hdrs total evs1 pg evs hcat hp1 htot hev1 hrest hevr
    unfold fetchWorkerRun
    rw [hcat, hp1]
    rw [show (safe_get (fun _ => GetResult.resp ⟨200, .list ps1, hdrs⟩) 3).result =
      .ok ⟨200, .list ps1, hdrs⟩ from rfl]
    dsimp only
    rw [htot]
    dsimp only
    rw [hev1]
    dsimp only
    obtain ⟨hdone, hbat⟩ := workerLoop_batches env cm total pg evs (pageList total) ps1
      (([Sig.status "Kategóriák letöltése…"] ++ [Sig.status "Posztok letöltése (1. oldal)…"]) ++
        [.progress 1 total, .pageEvents evs1]) hrest hevr
    rcases hww : workerLoop env cm total (pageList total) (.list ps1)
      (([Sig.status "Kategóriák letöltése…"] ++ [Sig.status "Posztok letöltése (1. oldal)…"]) ++
        [.progress 1 total, .pageEvents evs1]) with ⟨ws, wp, wd⟩
    rw [hww] at hdone hbat
    dsimp only at hdone hbat
    subst hdone
    rw [hww]
    dsimp only
    have hbat2 : emittedBatches ws = evs1 :: (pageList total).map evs := by
      rw [hbat]
      simp [emittedBatches]
    by_cases hsv : (save_cache cm wp env.nowSave env.saveFail fs).2 = true
    · rw [if_pos hsv]
      refine ⟨_, rfl, ?_⟩
      rw [emittedBatches_append, hbat2]
      simp [emittedBatches]
    · rw [if_neg hsv]
      refine ⟨_, rfl, ?_⟩
      rw [emittedBatches_append, hbat2]
      simp [emittedBatches]
  · intro st b
    unfold on_page_events
    by_cases hb : b.isEmpty
    · rw [if_pos hb]
      rw [List.isEmpty_iff] at hb
      subst hb
      simp
    · rw [if_neg hb]

theorem worker_unfiltered_consumer_filters_witness :
    (∃ out, fetchWorkerRun envC3 ⟨Option.none, Option.none⟩ 2 = some out ∧
      emittedBatches out.1 =
        [(⟨"", Option.none, Option.none, .str "–", "–", .str ""⟩ : Event)] ::
          (pageList 1).map (fun _ => [])) ∧
    (on_page_events ⟨[], true⟩
        [⟨"", Option.none, Option.none, .str "–", "–", .str ""⟩]).dfAll =
      [] ++ ([(⟨"", Option.none, Option.none, .str "–", "–", .str ""⟩ : Event)]).filter keepEv :=
  ⟨worker_unfiltered_consumer_filters.1 envC3 ⟨Option.none, Option.none⟩ 2 [] [.dict []] [] 1
      [⟨"", Option.none, Option.none, .str "–", "–", .str ""⟩] (fun _ => []) (fun _ => [])
      rfl rfl rfl rfl (fun p hp => absurd hp (by simp [pageList]))
      (fun p hp => absurd hp (by simp [pageList])),
   worker_unfiltered_consumer_filters.2 ⟨[], true⟩ _⟩

/-! ## Claim C8: total-page metadata handling -/

/-- C8 is false in its "malformed" half: with a present but non-numeric
`X-WP-TotalPages` header value, `int()` raises, the run emits only the two
status signals and a `failed` signal — it does not proceed with
`total = 1`. -/
theorem total_pages_malformed_cex :
    fetchWorkerRun envC8 ⟨Option.none, Option.none⟩ 2 =
      some ([.status "Kategóriák letöltése…", .status "Posztok letöltése (1. oldal)…",
        .failed "invalid literal for int() with base 10"], ⟨Option.none, Option.none⟩) := rfl

/-- C8 (amended): the total-page count defaults to 1 exactly when the
pagination header is ABSENT — the run then proceeds with total = 1 through
to the terminal success signal; a present but malformed (non-numeric)
header value instead makes `int()` raise `ValueError` and the run fails
before any progress or batch signal. -/
theorem total_pages_default_and_malformed :
    (∀ (env : WEnv) (fs : Fs) (catFuel : Nat) (cm : CatMap) (ps1 : List PyVal)
      (hdrs : List (String × String)) (evs1 : List Event),
      fetch_category_map env.catsPage 1 [] catFuel = some (.ok cm) →
      env.postsPage 1 = .resp ⟨200, .list ps1, hdrs⟩ →
      hdrs.lookup "X-WP-TotalPages" = Option.none →
      parseEventsV (.list ps1) cm = .ok evs1 →
      env.saveFail = Option.none →
      fetchWorkerRun env fs catFuel =
        some ([.status "Kategóriák letöltése…", .status "Posztok letöltése (1. oldal)…",
          .progress 1 1, .pageEvents evs1, .finished cm (.list ps1) env.nowRun],
          ⟨some (serCats cm), some (serPosts env.nowSave (.list ps1))⟩)) ∧
    (∀ (env : WEnv) (fs : Fs) (catFuel : Nat) (cm : CatMap) (ps1 : List PyVal)
      (hdrs : List (String × String)) (v : String),
      fetch_category_map env.catsPage 1 [] catFuel = some (.ok cm) →
      env.postsPage 1 = .resp ⟨200, .list ps1, hdrs⟩ →
      hdrs.lookup "X-WP-TotalPages" = some v →
      pyIntParse v = Option.none →
      fetchWorkerRun env fs catFuel =
        some ([.status "Kategóriák letöltése…", .status "Posztok letöltése (1. oldal)…",
          .failed "invalid literal for int() with base 10"], fs)) := by
  constructor
  · intro env fs catFuel cm ps1 hdrs evs1 hcat hp1 hdr hev1 hsave
    unfold fetchWorkerRun
    rw [hcat, hp1]
    rw [show (safe_get (fun _ => GetResult.resp ⟨200, .list ps1, hdrs⟩) 3).result =
      .ok ⟨200, .list ps1, hdrs⟩ from rfl]
    dsimp only
    rw [show headerTotal hdrs = .ok 1 from by rw [headerTotal, hdr]]
    dsimp only
    rw [hev1]
    dsimp only
    rw [show pageList 1 = [] from rfl]
    try dsimp only [workerLoop]
    rw [hsave]
    try rw [show (save_cache cm (.list ps1) env.nowSave Option.none fs).2 = false from rfl]
    try dsimp only
    try rw [show (save_cache cm (.list ps1) env.nowSave Option.none fs).1 =
      ⟨some (serCats cm), some (serPosts env.nowSave (.list ps1))⟩ from rfl]
    rfl
  · intro env fs catFuel cm ps1 hdrs v hcat hp1 hdr hbad
    unfold fetchWorkerRun
    rw [hcat, hp1]
    rw [show (safe_get (fun _ => GetResult.resp ⟨200, .list ps1, hdrs⟩) 3).result =
      .ok ⟨200, .list ps1, hdrs⟩ from rfl]
    dsimp only
    rw [show headerTotal hdrs = .error (.valueError "invalid literal for int() with base 10")
      from by rw [headerTotal, hdr]; dsimp only; rw [hbad]]
    rfl

theorem total_pages_default_and_malformed_witness :
    fetchWorkerRun envC3 ⟨Option.none, Option.none⟩ 2 =
      some ([.status "Kategóriák letöltése…", .status "Posztok letöltése (1. oldal)…",
        .progress 1 1,
        .pageEvents [⟨"", Option.none, Option.none, .str "–", "–", .str ""⟩],
        .finished [] (.list [.dict []]) envC3.nowRun],
        ⟨some (serCats []), some (serPosts envC3.nowSave (.list [.dict []]))⟩) ∧
    fetchWorkerRun envC8 ⟨some (.str "x"), Option.none⟩ 2 =
      some ([.status "Kategóriák letöltése…", .status "Posztok letöltése (1. oldal)…",
        .failed "invalid literal for int() with base 10"], ⟨some (.str "x"), Option.none⟩) :=
  ⟨total_pages_default_and_malformed.1 envC3 ⟨Option.none, Option.none⟩ 2 [] [.dict []] []
      [⟨"", Option.none, Option.none, .str "–", "–", .str ""⟩] rfl rfl rfl rfl rfl,
   total_pages_default_and_malformed.2 envC8 ⟨some (.str "x"), Option.none⟩ 2 [] []
      [("X-WP-TotalPages", "abc")] "abc" rfl rfl rfl rfl⟩

/-! ## Claim C10: the consumer keeps partial data after a failed run -/

theorem on_page_events_dfAll (st : AppState) (b : List Event) :
    (on_page_events st b).dfAll = st.dfAll ++ b.filter keepEv := by
  unfold on_page_events
  by_cases hb : b.isEmpty
  · rw [if_pos hb]
    rw [List.isEmpty_iff] at hb
    subst hb
    simp
  · rw [if_neg hb]

theorem consumer_fold_dfAll (batches : List (List Event)) :
    ∀ st : AppState, (batches.foldl on_page_events st).dfAll =
      st.dfAll ++ (batches.map (fun b => b.filter keepEv)).flatten := by
  induction batches with
  | nil =>
    intro st
    simp
  | cons b rest ih =>
    intro st
    rw [List.foldl_cons, ih, on_page_events_dfAll]
    simp [List.flatten_cons, List.append_assoc]

/-- C10: `refresh_from_api` clears the accumulated collection before any
batch arrives and `on_failed` performs no rollback — after a run that
fails having delivered `k` batches of worker-normalized events (whose
start cell is never the empty string), the accumulated collection holds
exactly the events with a present start date from those `k` batches:
partial data is kept, and the pre-run collection is lost. -/
theorem consumer_partial_data_after_failed_run (st0 : AppState)
    (batches : List (List Event))
    (hload : st0.loading = false)
    (hne : ∀ b ∈ batches, ∀ e ∈ b, e.start ≠ some "") :
    (on_failed (batches.foldl on_page_events (refresh_from_api st0))).dfAll =
      (batches.map (fun b => b.filter (fun e => e.start.isSome))).flatten ∧
    (on_failed (batches.foldl on_page_events (refresh_from_api st0))).loading = false := by
  have hrefresh : refresh_from_api st0 = ⟨[], true⟩ := by
    unfold refresh_from_api
    rw [if_neg (by simp [hload])]
  refine ⟨?_, rfl⟩
  rw [show ∀ s : AppState, (on_failed s).dfAll = s.dfAll from fun s => rfl]
  rw [hrefresh, consumer_fold_dfAll]
  simp only [List.nil_append]
  congr 1
  apply List.map_congr_left
  intro b hb
  apply List.filter_congr
  intro e he
  unfold keepEv
  have := hne b hb e he
  simp [this]

theorem consumer_partial_data_after_failed_run_witness :
    (on_failed (([[⟨"A", some "2024-09-01", Option.none, .str "–", "–", .str ""⟩,
        ⟨"B", Option.none, Option.none, .str "–", "–", .str ""⟩]] : List (List Event)).foldl
          on_page_events
          (refresh_from_api ⟨[⟨"Old", some "2020-01-01", Option.none, .str "–", "–", .str ""⟩],
            false⟩))).dfAll =
      (([[⟨"A", some "2024-09-01", Option.none, .str "–", "–", .str ""⟩,
        ⟨"B", Option.none, Option.none, .str "–", "–", .str ""⟩]] : List (List Event)).map
          (fun b => b.filter (fun e => e.start.isSome))).flatten ∧
    (on_failed (([[⟨"A", some "2024-09-01", Option.none, .str "–", "–", .str ""⟩,
        ⟨"B", Option.none, Option.none, .str "–", "–", .str ""⟩]] : List (List Event)).foldl
          on_page_events
          (refresh_from_api ⟨[⟨"Old", some "2020-01-01", Option.none, .str "–", "–", .str ""⟩],
            false⟩))).loading = false :=
  consumer_partial_data_after_failed_run
    ⟨[⟨"Old", some "2020-01-01", Option.none, .str "–", "–", .str ""⟩], false⟩
    [[⟨"A", some "2024-09-01", Option.none, .str "–", "–", .str ""⟩,
      ⟨"B", Option.none, Option.none, .str "–", "–", .str ""⟩]]
    rfl (by decide)

/-! ## Claim C6: cache round-trip -/

theorem load_fold (T : CatMap) : ∀ acc : CatMap,
    (∀ k ∈ T.map Prod.fst, catFind acc k = Option.none) →
    (T.map Prod.fst).Nodup →
    (T.map (fun kv => (intToStr kv.1, PyVal.str kv.2))).foldl (fun acc kv =>
      match pyIntParse kv.1 with
      | some n => catSet acc n (pyStr kv.2)
      | Option.none => acc) acc = acc ++ T := by
  induction T with
  | nil =>
    intro acc _ _
    simp
  | cons kv rest ih =>
    obtain ⟨k, v⟩ := kv
    intro acc hfresh hnodup
    simp only [List.map_cons, List.foldl_cons]
    rw [show (match pyIntParse (intToStr k) with
      | some n => catSet acc n (pyStr (PyVal.str v))
      | Option.none => acc) = catSet acc k v from by rw [pyIntParse_intToStr]; rfl]
    rw [catSet_of_not_mem (hfresh k (by simp))]
    simp only [List.map_cons, List.nodup_cons] at hnodup
    rw [ih (acc ++ [(k, v)]) ?_ hnodup.2]
    · simp
    · intro k2 hk2
      rw [catFind_append_right (hfresh k2 (by simp [hk2]))]
      have hkk : k ≠ k2 := by
        intro he
        rw [he] at hnodup
        exact hnodup.1 hk2
      unfold catFind
      rw [if_neg hkk]
      rfl

/-- C6: the cache round-trip holds.  `save(T, R)` serializes the table
with text keys; `load()` coerces them back with `int()` (discarding keys
that fail coercion — second conjunct shows a non-numeric key being
dropped) and returns the same id-to-name pairs, the same record list, and
the fetchedAt timestamp written by save. -/
theorem cache_round_trip (T : CatMap) (R : List PyVal) (now : String) (fs : Fs)
    (hnd : (T.map Prod.fst).Nodup) :
    load_cache (save_cache T (.list R) now Option.none fs).1 =
      (some T, .list R, .str now) ∧
    load_cache ⟨some (.dict [("x", .str "a"), ("5", .str "b")]),
        some (serPosts "t" (.list []))⟩ = (some [(5, "b")], .list [], .str "t") := by
  constructor
  · rw [show (save_cache T (.list R) now Option.none fs).1 =
      ⟨some (serCats T), some (serPosts now (.list R))⟩ from rfl]
    unfold load_cache serCats serPosts
    dsimp only
    rw [load_fold T [] (fun k _ => rfl) hnd]
    rfl
  · rfl

theorem cache_round_trip_witness :
    load_cache (save_cache [(1, "a"), (2, "b")] (.list [.dict [("id", .int 7)]]) "t"
        Option.none ⟨Option.none, Option.none⟩).1 =
      (some [(1, "a"), (2, "b")], .list [.dict [("id", .int 7)]], .str "t") ∧
    load_cache ⟨some (.dict [("x", .str "a"), ("5", .str "b")]),
        some (serPosts "t" (.list []))⟩ = (some [(5, "b")], .list [], .str "t") :=
  cache_round_trip [(1, "a"), (2, "b")] [.dict [("id", .int 7)]] "t"
    ⟨Option.none, Option.none⟩ (by decide)

/-! ## Claim C7: category resolution pagination -/

theorem catFind_eq_none_of_not_mem {m : CatMap} {k : Int}
    (h : k ∉ m.map Prod.fst) : catFind m k = Option.none := by
  induction m with
  | nil => rfl
  | cons kv rest ih =>
    obtain ⟨k1, v1⟩ := kv
    simp only [List.map_cons, List.mem_cons, not_or] at h
    unfold catFind
    rw [if_neg (fun he => h.1 he.symm)]
    exact ih h.2

theorem foldCat_entries (kvs : CatMap) : ∀ m : CatMap,
    (∀ k ∈ kvs.map Prod.fst, catFind m k = Option.none) →
    (kvs.map Prod.fst).Nodup →
    (kvs.map catEntry).foldlM addCatEntry m = .ok (m ++ kvs) := by
  induction kvs with
  | nil =>
    intro m _ _
    simp
    rfl
  | cons kv rest ih =>
    obtain ⟨k, v⟩ := kv
    intro m hfresh hnodup
    rw [List.map_cons, List.foldlM_cons]
    rw [show addCatEntry m (catEntry (k, v)) = .ok (catSet m k v) from rfl]
    rw [exbind_ok, catSet_of_not_mem (hfresh k (by simp))]
    simp only [List.map_cons, List.nodup_cons] at hnodup
    rw [ih (m ++ [(k, v)]) ?_ hnodup.2]
    · simp
    · intro k2 hk2
      rw [catFind_append_right (hfresh k2 (by simp [hk2]))]
      have hkk : k ≠ k2 := by
        intro he
        rw [he] at hnodup
        exact hnodup.1 hk2
      unfold catFind
      rw [if_neg hkk]
      rfl

theorem fetch_category_map_step (g : Nat → GetResult) (page : Nat) (m kvs : CatMap)
    (fuel : Nat)
    (hpage : g page = .resp ⟨200, .list (kvs.map catEntry), []⟩)
    (hne : kvs ≠ [])
    (hfresh : ∀ k ∈ kvs.map Prod.fst, catFind m k = Option.none)
    (hnodup : (kvs.map Prod.fst).Nodup) :
    fetch_category_map g page m (fuel + 1) =
      fetch_category_map g (page + 1) (m ++ kvs) fuel := by
  simp only [fetch_category_map]
  rw [hpage]
  rw [show (safe_get (fun _ => GetResult.resp ⟨200, .list (kvs.map catEntry), []⟩) 3).result =
    .ok ⟨200, .list (kvs.map catEntry), []⟩ from rfl]
  try dsimp only
  rw [show pyTruthy (PyVal.list (kvs.map catEntry)) = true from by
    simp [pyTruthy, hne]]
  try dsimp only
  rw [show pyIterate (PyVal.list (kvs.map catEntry)) = .ok (kvs.map catEntry) from rfl]
  try dsimp only
  rw [foldCat_entries kvs m hfresh hnodup]
  rfl

theorem fetch_category_map_stop (g : Nat → GetResult) (page : Nat) (m : CatMap)
    (fuel : Nat) (hpage : g page = .resp ⟨200, .list [], []⟩) :
    fetch_category_map g page m (fuel + 1) = some (.ok m) := by
  simp only [fetch_category_map]
  rw [hpage]
  rfl

/-- C7: category resolution requests pages of the fixed size from page 1,
incrementing until an empty page; entries with both id and name populate
the table.  For page contents of sizes [100, 100, 37, 0] with pairwise
distinct ids, the run consults 4 pages, of which exactly 3 contribute
data, and produces a table of exactly 237 entries; with fuel for only 3
requests the loop is still running, showing the fourth (empty) page is
really consulted. -/
theorem fetch_category_map_pages (g : Nat → GetResult) (kv1 kv2 kv3 : CatMap)
    (h1 : g 1 = .resp ⟨200, .list (kv1.map catEntry), []⟩)
    (h2 : g 2 = .resp ⟨200, .list (kv2.map catEntry), []⟩)
    (h3 : g 3 = .resp ⟨200, .list (kv3.map catEntry), []⟩)
    (h4 : g 4 = .resp ⟨200, .list [], []⟩)
    (hl1 : kv1.length = 100) (hl2 : kv2.length = 100) (hl3 : kv3.length = 37)
    (hnd : ((kv1 ++ kv2 ++ kv3).map Prod.fst).Nodup) :
    fetch_category_map g 1 [] 4 = some (.ok (kv1 ++ kv2 ++ kv3)) ∧
    (kv1 ++ kv2 ++ kv3).length = 237 ∧
    fetch_category_map g 1 [] 3 = Option.none := by
  rw [List.map_append, List.map_append, List.nodup_append, List.nodup_append] at hnd
  obtain ⟨⟨nd1, nd2, dj12⟩, nd3, dj123⟩ := hnd
  have hne1 : kv1 ≠ [] := by intro he; rw [he] at hl1; simp at hl1
  have hne2 : kv2 ≠ [] := by intro he; rw [he] at hl2; simp at hl2
  have hne3 : kv3 ≠ [] := by intro he; rw [he] at hl3; simp at hl3
  have hf1 : ∀ k ∈ kv1.map Prod.fst, catFind ([] : CatMap) k = Option.none :=
    fun k _ => rfl
  have hf2 : ∀ k ∈ kv2.map Prod.fst, catFind (([] : CatMap) ++ kv1) k = Option.none := by
    intro k hk
    apply catFind_eq_none_of_not_mem
    simp only [List.nil_append]
    intro hk1
    exact dj12 hk1 hk
  have hf3 : ∀ k ∈ kv3.map Prod.fst,
      catFind ((([] : CatMap) ++ kv1) ++ kv2) k = Option.none := by
    intro k hk
    apply catFind_eq_none_of_not_mem
    intro hkin
    have hk12 : k ∈ kv1.map Prod.fst ++ kv2.map Prod.fst := by
      rw [← List.map_append]
      simpa using hkin
    exact dj123 hk12 hk
  refine ⟨?_, ?_, ?_⟩
  · show fetch_category_map g 1 [] (3 + 1) = _
    rw [fetch_category_map_step g 1 [] kv1 3 h1 hne1 hf1 nd1]
    show fetch_category_map g 2 ([] ++ kv1) (2 + 1) = _
    rw [fetch_category_map_step g 2 ([] ++ kv1) kv2 2 h2 hne2 hf2 nd2]
    show fetch_category_map g 3 (([] ++ kv1) ++ kv2) (1 + 1) = _
    rw [fetch_category_map_step g 3 (([] ++ kv1) ++ kv2) kv3 1 h3 hne3 hf3 nd3]
    show fetch_category_map g 4 ((([] ++ kv1) ++ kv2) ++ kv3) (0 + 1) = _
    rw [fetch_category_map_stop g 4 _ 0 h4]
    simp
  · simp [hl1, hl2, hl3]
  · show fetch_category_map g 1 [] (2 + 1) = _
    rw [fetch_category_map_step g 1 [] kv1 2 h1 hne1 hf1 nd1]
    show fetch_category_map g 2 ([] ++ kv1) (1 + 1) = _
    rw [fetch_category_map_step g 2 ([] ++ kv1) kv2 1 h2 hne2 hf2 nd2]
    show fetch_category_map g 3 (([] ++ kv1) ++ kv2) (0 + 1) = _
    rw [fetch_category_map_step g 3 (([] ++ kv1) ++ kv2) kv3 0 h3 hne3 hf3 nd3]
    rfl

set_option maxRecDepth 8192 in
theorem fetch_category_map_pages_witness :
    fetch_category_map
      (fun p => if p = 1 then
          .resp ⟨200, .list (((List.range 100).map (fun i => ((i : Int), "n"))).map catEntry), []⟩
        else if p = 2 then
          .resp ⟨200, .list (((List.range 100).map
            (fun i => ((i : Int) + 100, "n"))).map catEntry), []⟩
        else if p = 3 then
          .resp ⟨200, .list (((List.range 37).map
            (fun i => ((i : Int) + 200, "n"))).map catEntry), []⟩
        else .resp ⟨200, .list [], []⟩)
      1 [] 4 =
      some (.ok ((List.range 100).map (fun i => ((i : Int), "n")) ++
        (List.range 100).map (fun i => ((i : Int) + 100, "n")) ++
        (List.range 37).map (fun i => ((i : Int) + 200, "n")))) ∧
    ((List.range 100).map (fun i => ((i : Int), "n")) ++
        (List.range 100).map (fun i => ((i : Int) + 100, "n")) ++
        (List.range 37).map (fun i => ((i : Int) + 200, "n"))).length = 237 ∧
    fetch_category_map
      (fun p => if p = 1 then
          .resp ⟨200, .list (((List.range 100).map (fun i => ((i : Int), "n"))).map catEntry), []⟩
        else if p = 2 then
          .resp ⟨200, .list (((List.range 100).map
            (fun i => ((i : Int) + 100, "n"))).map catEntry), []⟩
        else if p = 3 then
          .resp ⟨200, .list (((List.range 37).map
            (fun i => ((i : Int) + 200, "n"))).map catEntry), []⟩
        else .resp ⟨200, .list [], []⟩)
      1 [] 3 = Option.none :=
  fetch_category_map_pages _
    ((List.range 100).map (fun i => ((i : Int), "n")))
    ((List.range 100).map (fun i => ((i : Int) + 100, "n")))
    ((List.range 37).map (fun i => ((i : Int) + 200, "n")))
    rfl rfl rfl rfl rfl rfl rfl (by decide)

/-! ## Claims C5 and C9: the filter/sort engine -/

theorem pyStrLt_conn {s t : String} (h1 : pyStrLt s t = false) (h2 : pyStrLt t s = false) :
    s = t :=
  String.ext (pyListLt_conn h1 h2)
theorem evLe_total (a b : Event) : (evLe a b || evLe b a) = true := by
  unfold evLe
  by_cases he : a.start.getD "" = b.start.getD ""
  · rw [if_pos he, if_pos he.symm]
    by_cases h1 : pyStrLt b.title a.title = true
    · have h2 : pyStrLt a.title b.title = false := pyListLt_asymm h1
      simp [h1, h2]
    · rw [Bool.not_eq_true] at h1
      simp [h1]
  · rw [if_neg he, if_neg (fun hh => he hh.symm)]
    by_cases h1 : pyStrLt (a.start.getD "") (b.start.getD "") = true
    · simp [h1]
    · by_cases h2 : pyStrLt (b.start.getD "") (a.start.getD "") = true
      · simp [h2]
      · rw [Bool.not_eq_true] at h1 h2
        exact absurd (pyStrLt_conn h1 h2) he

theorem evLe_trans (a b c : Event) (h1 : evLe a b = true) (h2 : evLe b c = true) :
    evLe a c = true := by
  unfold evLe at *
  by_cases hab : a.start.getD "" = b.start.getD ""
  · rw [if_pos hab] at h1
    by_cases hbc : b.start.getD "" = c.start.getD ""
    · rw [if_pos hbc] at h2
      rw [if_pos (hab.trans hbc)]
      rw [Bool.not_eq_true'] at h1 h2 ⊢
      by_contra hca
      rw [Bool.not_eq_false] at hca
      rcases Bool.eq_false_or_eq_true (pyStrLt a.title b.title) with hab2 | hab2
      · have hcb : pyStrLt c.title b.title = true := pyListLt_trans hca hab2
        rw [hcb] at h2
        exact Bool.noConfusion h2
      · have heq : a.title = b.title := pyStrLt_conn hab2 h1
        rw [heq] at hca
        rw [hca] at h2
        exact Bool.noConfusion h2
    · rw [if_neg hbc] at h2
      rw [if_neg (show ¬ a.start.getD "" = c.start.getD "" by rw [hab]; exact hbc)]
      rw [← hab] at h2
      exact h2
  · rw [if_neg hab] at h1
    by_cases hbc : b.start.getD "" = c.start.getD ""
    · rw [← hbc, if_neg hab]
      exact h1
    · rw [if_neg hbc] at h2
      have hac : pyStrLt (a.start.getD "") (c.start.getD "") = true := pyListLt_trans h1 h2
      have hne : ¬ a.start.getD "" = c.start.getD "" := by
        intro heq
        rw [heq] at hac
        rw [show pyStrLt (c.start.getD "") (c.start.getD "") = false from
          pyListLt_irrefl _] at hac
        exact Bool.noConfusion hac
      rw [if_neg hne]
      exact hac

theorem isRegexMeta_lowerChar {c : Char} (h : isRegexMeta (lowerChar c) = true) :
    isRegexMeta c = true := by
  unfold lowerChar at h
  split at h
  · rename_i hc
    obtain ⟨h1, h2⟩ := hc
    exfalso
    set n := c.toNat with hn
    interval_cases n <;> exact absurd h (by decide)
  · exact h

theorem regexFree_lowerStr {s : String} (h : regexFree s = true) :
    regexFree (lowerStr s) = true := by
  unfold regexFree at *
  rw [Bool.not_eq_true'] at h ⊢
  rw [show (lowerStr s).data = s.data.map lowerChar from rfl]
  rw [List.any_map]
  rw [List.any_eq_false] at h ⊢
  intro x hx
  intro hmeta
  exact h x hx (isRegexMeta_lowerChar hmeta)

theorem searchMask_ok {q : String} (hq : regexFree q = true) (e : Event) :
    searchMask q e = .ok (subIn q (lowerStr e.title) || subIn q (lowerStr (pyStr e.place))) := by
  unfold searchMask pyContains
  rw [if_pos hq]
  rw [if_pos hq]
  rfl

theorem expure_bind {α β : Type} (a : α) (f : α → Except PyErr β) :
    ((pure a : Except PyErr α) >>= f) = f a := rfl

theorem apply_filters_eq (events : List Event) (c : Criteria)
    (hq : regexFree (trimStr c.queryText) = true) :
    apply_filters events c = .ok ((events.filter (specKeep c)).mergeSort evLe) := by
  have hq2 : regexFree (lowerStr (trimStr c.queryText)) = true := regexFree_lowerStr hq
  have h12 : (events.filter (fun e => (to_date e.start).isSome)).filter (dateMask c)
      = events.filter (dateMask c) := by
    rw [List.filter_filter]
    apply List.filter_congr
    intro e _
    cases hd : to_date e.start <;> simp [dateMask, hd]
  unfold apply_filters
  dsimp only
  rw [h12]
  cases hsel : c.selected.isEmpty
  · simp only [Bool.false_eq_true, if_false]
    by_cases hqe : lowerStr (trimStr c.queryText) = ""
    · rw [if_pos hqe, expure_bind]
      have hk : events.filter (specKeep c)
          = (events.filter (dateMask c)).filter (fun e => has_any e.cats c.selected) := by
        rw [List.filter_filter]
        apply List.filter_congr
        intro e _
        simp [specKeep, hsel, hqe, Bool.and_comm]
      rw [hk]
      rfl
    · rw [if_neg hqe]
      rw [filterE_ok_of (fun x _ => searchMask_ok hq2 x), exbind_ok]
      have hk : events.filter (specKeep c)
          = ((events.filter (dateMask c)).filter (fun e => has_any e.cats c.selected)).filter
              (fun e => subIn (lowerStr (trimStr c.queryText)) (lowerStr e.title)
                || subIn (lowerStr (trimStr c.queryText)) (lowerStr (pyStr e.place))) := by
        rw [List.filter_filter, List.filter_filter]
        apply List.filter_congr
        intro e _
        have hbe : (lowerStr (trimStr c.queryText) == "") = false := by
          simp [hqe]
        simp [specKeep, hsel, hbe, Bool.and_comm, Bool.and_left_comm, Bool.and_assoc]
      rw [hk]
      rfl
  · simp only [if_true]
    by_cases hqe : lowerStr (trimStr c.queryText) = ""
    · rw [if_pos hqe, expure_bind]
      have hk : events.filter (specKeep c) = events.filter (dateMask c) := by
        apply List.filter_congr
        intro e _
        simp [specKeep, hsel, hqe]
      rw [hk]
      rfl
    · rw [if_neg hqe]
      rw [filterE_ok_of (fun x _ => searchMask_ok hq2 x), exbind_ok]
      have hk : events.filter (specKeep c)
          = (events.filter (dateMask c)).filter
              (fun e => subIn (lowerStr (trimStr c.queryText)) (lowerStr e.title)
                || subIn (lowerStr (trimStr c.queryText)) (lowerStr (pyStr e.place))) := by
        rw [List.filter_filter]
        apply List.filter_congr
        intro e _
        have hbe : (lowerStr (trimStr c.queryText) == "") = false := by
          simp [hqe]
        simp [specKeep, hsel, hbe, Bool.and_comm]
      rw [hk]
      rfl

theorem validYmd_bounds {y m d : Nat} (h : validYmd y m d = true) :
    y ≤ 9999 ∧ m ≤ 99 ∧ d ≤ 99 := by
  unfold validYmd at h
  have hdm : daysInMonth y m ≤ 31 := by
    unfold daysInMonth
    split
    · split <;> omega
    · split <;> omega
  simp only [Bool.and_eq_true, decide_eq_true_eq] at h
  omega

theorem evLe_to_specLe {x y : Event} {dx dy : Ymd}
    (hx : to_date x.start = some dx) (hy : to_date y.start = some dy)
    (h : evLe x y = true) : specLe x y := by
  refine ⟨dx, dy, hx, hy, ?_⟩
  obtain ⟨sx, hsx⟩ : ∃ s, x.start = some s := by
    cases hs : x.start
    · rw [hs] at hx
      exact Option.noConfusion hx
    · exact ⟨_, rfl⟩
  obtain ⟨sy, hsy⟩ : ∃ s, y.start = some s := by
    cases hs : y.start
    · rw [hs] at hy
      exact Option.noConfusion hy
    · exact ⟨_, rfl⟩
  rw [hsx] at hx
  rw [hsy] at hy
  have hfx : fromIso sx = some dx := hx
  have hfy : fromIso sy = some dy := hy
  obtain ⟨hcx, hvx⟩ := fromIso_some hfx
  obtain ⟨hcy, hvy⟩ := fromIso_some hfy
  obtain ⟨hx1, hx2, hx3⟩ := validYmd_bounds hvx
  obtain ⟨hy1, hy2, hy3⟩ := validYmd_bounds hvy
  unfold evLe at h
  rw [hsx, hsy] at h
  simp only [Option.getD_some] at h
  by_cases he : sx = sy
  · rw [if_pos he] at h
    right
    constructor
    · rw [he] at hfx
      have hxy : some dx = some dy := hfx.symm.trans hfy
      exact Option.some.inj hxy
    · rw [Bool.not_eq_true'] at h
      exact h
  · rw [if_neg he] at h
    left
    rw [hcx, hcy] at h
    exact (renderYmd_lt hx1 hx2 hx3 hy1 hy2 hy3).mp h

theorem exbind_error {β : Type} (e : PyErr) (f : List Event → Except PyErr β) :
    ((Except.error e : Except PyErr (List Event)) >>= f) = .error e := rfl

theorem dateMask_isSome {c : Criteria} {e : Event} (h : dateMask c e = true) :
    (to_date e.start).isSome = true := by
  unfold dateMask at h
  cases hd : to_date e.start
  · rw [hd] at h
    exact Bool.noConfusion h
  · simp [hd]

theorem dateMask_some {c : Criteria} {e : Event} (h : dateMask c e = true) :
    ∃ d, to_date e.start = some d := by
  cases hd : to_date e.start
  · unfold dateMask at h
    rw [hd] at h
    exact Bool.noConfusion h
  · exact ⟨_, rfl⟩

theorem specKeep_dateMask {c : Criteria} {e : Event} (h : specKeep c e = true) :
    dateMask c e = true := by
  unfold specKeep at h
  dsimp only at h
  simp only [Bool.and_eq_true] at h
  exact h.1.1

/-- C5 is false as stated: the query engine strips the free-text query
before matching (`self.txt_search.text().strip().lower()`), so for the
query `" x"` and an event titled `"x"` the code keeps the event even
though the lowercased un-stripped query `" x"` is a substring of neither
the lowercased title nor the lowercased place, and the query is
non-empty — the claim says such an event is excluded. -/
theorem apply_filters_query_strip_cex :
    apply_filters [⟨"x", some "2024-09-01", Option.none, .str "h", "c", .str ""⟩]
        ⟨⟨2024, 1, 1⟩, ⟨2025, 1, 1⟩, [], " x"⟩ =
      .ok [⟨"x", some "2024-09-01", Option.none, .str "h", "c", .str ""⟩] ∧
    subIn (lowerStr " x") (lowerStr "x") = false ∧
    subIn (lowerStr " x") (lowerStr (pyStr (.str "h"))) = false ∧
    (" x" : String) ≠ "" := by
  refine ⟨?_, rfl, rfl, by decide⟩
  rw [show apply_filters [⟨"x", some "2024-09-01", Option.none, .str "h", "c", .str ""⟩]
        ⟨⟨2024, 1, 1⟩, ⟨2025, 1, 1⟩, [], " x"⟩ =
      .ok ([⟨"x", some "2024-09-01", Option.none, .str "h", "c", .str ""⟩].mergeSort evLe)
    from rfl]
  rw [List.mergeSort_singleton]

/-- C5 (amended): for any event collection and criteria whose STRIPPED
free-text query is free of regex metacharacters (the code hands the query
to `pandas .str.contains`, which interprets it as a regular expression and
can raise on other patterns), `apply_filters` succeeds and returns a
permutation of exactly the events whose start date parses and lies within
the closed range, that match a selected category when the selection is
non-empty, and that (when the stripped lowercased query is non-empty)
contain it as a substring of the lowercased title or the lowercased
rendered place; the result is sorted ascending by (start date, title). -/
theorem apply_filters_spec_amended (events : List Event) (c : Criteria)
    (hq : regexFree (trimStr c.queryText) = true) :
    ∃ r, apply_filters events c = .ok r ∧
      r.Perm (events.filter (specKeep c)) ∧ List.Pairwise specLe r := by
  refine ⟨_, apply_filters_eq events c hq, List.mergeSort_perm _ evLe, ?_⟩
  have hs : List.Pairwise (fun a b => evLe a b = true)
      ((events.filter (specKeep c)).mergeSort evLe) :=
    List.sorted_mergeSort evLe_trans evLe_total (events.filter (specKeep c))
  refine hs.imp_of_mem ?_
  intro a b ha hb hab
  rw [List.mem_mergeSort] at ha hb
  obtain ⟨da, hda⟩ := dateMask_some (specKeep_dateMask (List.mem_filter.mp ha).2)
  obtain ⟨db, hdb⟩ := dateMask_some (specKeep_dateMask (List.mem_filter.mp hb).2)
  exact evLe_to_specLe hda hdb hab

theorem apply_filters_spec_amended_witness :
    regexFree (trimStr " ab ") = true ∧
    ∃ r, apply_filters [⟨"t", some "2024-09-01", Option.none, .str "h", "c", .str ""⟩]
        ⟨⟨2024, 1, 1⟩, ⟨2025, 1, 1⟩, [], " ab "⟩ = .ok r ∧
      r.Perm ([⟨"t", some "2024-09-01", Option.none, .str "h", "c", .str ""⟩].filter
        (specKeep ⟨⟨2024, 1, 1⟩, ⟨2025, 1, 1⟩, [], " ab "⟩)) ∧
      List.Pairwise specLe r :=
  ⟨rfl, apply_filters_spec_amended _ _ rfl⟩

/-- C9: the query engine is idempotent — whenever `apply_filters` succeeds,
re-applying it with the same criteria to its own output returns that
output unchanged: every surviving row still parses, lies in the range,
matches the category and text criteria, and the already-sorted order is a
fixed point of the stable sort. -/
theorem query_idempotent (events : List Event) (c : Criteria) (r : List Event)
    (h : apply_filters events c = .ok r) : apply_filters r c = .ok r := by
  unfold apply_filters at h ⊢
  dsimp only at h ⊢
  cases hsel : c.selected.isEmpty
  · simp only [hsel, Bool.false_eq_true, if_false] at h ⊢
    by_cases hqe : lowerStr (trimStr c.queryText) = ""
    · rw [if_pos hqe, expure_bind] at h ⊢
      have hr : r = (((events.filter (fun e => (to_date e.start).isSome)).filter
          (dateMask c)).filter (fun e => has_any e.cats c.selected)).mergeSort evLe :=
        (Except.ok.inj h).symm
      have hmem : ∀ x ∈ r, dateMask c x = true ∧ has_any x.cats c.selected = true := by
        intro x hx
        rw [hr, List.mem_mergeSort] at hx
        obtain ⟨hx2, hha⟩ := List.mem_filter.mp hx
        exact ⟨(List.mem_filter.mp hx2).2, hha⟩
      have hsort : List.Pairwise (fun a b => evLe a b = true) r := by
        rw [hr]
        exact List.sorted_mergeSort evLe_trans evLe_total _
      rw [List.filter_eq_self.mpr (fun a ha => dateMask_isSome (hmem a ha).1)]
      rw [List.filter_eq_self.mpr (fun a ha => (hmem a ha).1)]
      rw [List.filter_eq_self.mpr (fun a ha => (hmem a ha).2)]
      rw [List.mergeSort_of_sorted hsort]
      rfl
    · rw [if_neg hqe] at h ⊢
      cases hfe : filterE (searchMask (lowerStr (trimStr c.queryText)))
          (((events.filter (fun e => (to_date e.start).isSome)).filter
            (dateMask c)).filter (fun e => has_any e.cats c.selected)) with
      | error e =>
        rw [hfe, exbind_error] at h
        exact Except.noConfusion h
      | ok d4 =>
        rw [hfe, exbind_ok] at h
        have hr : r = d4.mergeSort evLe := (Except.ok.inj h).symm
        have hmemd : ∀ x ∈ r,
            x ∈ ((events.filter (fun e => (to_date e.start).isSome)).filter
              (dateMask c)).filter (fun e => has_any e.cats c.selected) ∧
            searchMask (lowerStr (trimStr c.queryText)) x = .ok true := by
          intro x hx
          rw [hr, List.mem_mergeSort] at hx
          exact filterE_mem hfe x hx
        have hmem : ∀ x ∈ r, dateMask c x = true ∧ has_any x.cats c.selected = true := by
          intro x hx
          obtain ⟨hx2, hha⟩ := List.mem_filter.mp (hmemd x hx).1
          exact ⟨(List.mem_filter.mp hx2).2, hha⟩
        have hsort : List.Pairwise (fun a b => evLe a b = true) r := by
          rw [hr]
          exact List.sorted_mergeSort evLe_trans evLe_total _
        rw [List.filter_eq_self.mpr (fun a ha => dateMask_isSome (hmem a ha).1)]
        rw [List.filter_eq_self.mpr (fun a ha => (hmem a ha).1)]
        rw [List.filter_eq_self.mpr (fun a ha => (hmem a ha).2)]
        rw [filterE_all_true (fun x hx => (hmemd x hx).2), exbind_ok]
        rw [List.mergeSort_of_sorted hsort]
        rfl
  · simp only [hsel, if_true] at h ⊢
    by_cases hqe : lowerStr (trimStr c.queryText) = ""
    · rw [if_pos hqe, expure_bind] at h ⊢
      have hr : r = ((events.filter (fun e => (to_date e.start).isSome)).filter
          (dateMask c)).mergeSort evLe :=
        (Except.ok.inj h).symm
      have hmem : ∀ x ∈ r, dateMask c x = true := by
        intro x hx
        rw [hr, List.mem_mergeSort] at hx
        exact (List.mem_filter.mp hx).2
      have hsort : List.Pairwise (fun a b => evLe a b = true) r := by
        rw [hr]
        exact List.sorted_mergeSort evLe_trans evLe_total _
      rw [List.filter_eq_self.mpr (fun a ha => dateMask_isSome (hmem a ha))]
      rw [List.filter_eq_self.mpr hmem]
      rw [List.mergeSort_of_sorted hsort]
      rfl
    · rw [if_neg hqe] at h ⊢
      cases hfe : filterE (searchMask (lowerStr (trimStr c.queryText)))
          ((events.filter (fun e => (to_date e.start).isSome)).filter (dateMask c)) with
      | error e =>
        rw [hfe, exbind_error] at h
        exact Except.noConfusion h
      | ok d4 =>
        rw [hfe, exbind_ok] at h
        have hr : r = d4.mergeSort evLe := (Except.ok.inj h).symm
        have hmemd : ∀ x ∈ r,
            x ∈ (events.filter (fun e => (to_date e.start).isSome)).filter (dateMask c) ∧
            searchMask (lowerStr (trimStr c.queryText)) x = .ok true := by
          intro x hx
          rw [hr, List.mem_mergeSort] at hx
          exact filterE_mem hfe x hx
        have hmem : ∀ x ∈ r, dateMask c x = true :=
          fun x hx => (List.mem_filter.mp (hmemd x hx).1).2
        have hsort : List.Pairwise (fun a b => evLe a b = true) r := by
          rw [hr]
          exact List.sorted_mergeSort evLe_trans evLe_total _
        rw [List.filter_eq_self.mpr (fun a ha => dateMask_isSome (hmem a ha))]
        rw [List.filter_eq_self.mpr hmem]
        rw [filterE_all_true (fun x hx => (hmemd x hx).2), exbind_ok]
        rw [List.mergeSort_of_sorted hsort]
        rfl

theorem query_idempotent_witness :
    apply_filters [⟨"t", some "2024-09-01", Option.none, .str "h", "c", .str ""⟩]
        ⟨⟨2024, 1, 1⟩, ⟨2025, 1, 1⟩, [], ""⟩ =
      .ok [⟨"t", some "2024-09-01", Option.none, .str "h", "c", .str ""⟩] :=
  query_idempotent [⟨"t", some "2024-09-01", Option.none, .str "h", "c", .str ""⟩]
    ⟨⟨2024, 1, 1⟩, ⟨2025, 1, 1⟩, [], ""⟩
    [⟨"t", some "2024-09-01", Option.none, .str "h", "c", .str ""⟩]
    (by rw [show apply_filters [⟨"t", some "2024-09-01", Option.none, .str "h", "c", .str ""⟩]
          ⟨⟨2024, 1, 1⟩, ⟨2025, 1, 1⟩, [], ""⟩ =
        .ok ([⟨"t", some "2024-09-01", Option.none, .str "h", "c", .str ""⟩].mergeSort evLe)
      from rfl, List.mergeSort_singleton])
